import Mathlib

set_option maxRecDepth 100000

/-!
# Verification of the alignment / protein-folding core

A shallow embedding in Lean 4 of the algorithmic core of the
`BioInformatics_Final_Project` repository (an educational visualizer for
pairwise sequence alignment and lattice protein folding), together with
proofs and refutations of the frozen specification claims.

Conventions used throughout:

* JavaScript `number` values are embedded as `ℤ` where the source only
  ever produces integers (all alignment scores: sums/maxima of integer
  parameters), and as `ℚ` for the values of the seeded pseudo-random
  generator (`value / 0xffffffff`).  `-Infinity`, which appears only in
  the banded alignment matrix, is embedded as `⊥ : WithBot ℤ`.
* Strings are embedded as `List Char`; a JS `Set` of `"x,y"` keys is
  embedded as a `List Point` (the key function is injective, so set
  membership of keys coincides with membership of points).
* Imperative row-major DP fill loops are embedded as structurally
  recursive functions that build the matrix row by row, reading - exactly
  as the source does - only cells that have already received their final
  value.  A separate recursive characterisation (`…CellRec`) is proved
  equal to the fill and is used in the universal proofs.
* The source records an append-only `steps` log for visualization whose
  entries merely restate, per cell, the three candidate values and the
  chosen direction already present in the matrix (the spec itself notes
  the log is reconstructible from the matrix alone).  The alignment
  embedding therefore carries the matrix, aligned strings, score and
  path, which is everything the claims quantify over.  The folding
  embedding keeps its step logs because a claim refers to their length.
-/

/-- Traceback direction stored in each DP matrix cell
(`Direction` in `types/alignment.ts`). -/
inductive Dir : Type where
  | none : Dir
  | diagonal : Dir
  | up : Dir
  | left : Dir
deriving DecidableEq, Repr

/-- Scoring parameters (`ScoringParams`).  The source field `match` is a
Lean keyword and is embedded as `matchScore`. -/
structure ScoringParams where
  matchScore : ℤ
  mismatch : ℤ
  gapPenalty : ℤ
deriving DecidableEq, Repr

/-- A DP matrix cell (`MatrixCell`) for the variants whose scores stay
finite.  The source also stores `row`, `col` (the cell's own indices,
redundant with its position in the matrix) and the display flag
`isOnPath` (write-only bookkeeping for rendering); the claims quantify
over `score` and `direction`. -/
structure Cell where
  score : ℤ
  direction : Dir
deriving DecidableEq, Repr

/-- Default cell used by the total list-indexing helper; never read at
in-range indices. -/
def cellDflt : Cell := ⟨0, Dir.none⟩

/-- `getMatchScore` (identical in all four alignment sources). -/
def getMatchScore (c1 c2 : Char) (p : ScoringParams) : ℤ :=
  if c1 = c2 then p.matchScore else p.mismatch

/-- Body of the inner fill loop shared verbatim by the global, dovetail
and (within the band) banded sources: the three candidate scores, their
maximum (`Math.max(diagonalScore, upScore, leftScore)`), and the
direction chosen by the source's `if / else if / else` chain. -/
def computeCell (p : ScoringParams) (c1 c2 : Char)
    (diagPrev upPrev leftPrev : ℤ) : Cell :=
  let matchScore := getMatchScore c1 c2 p
  let diagonalScore := diagPrev + matchScore
  let upScore := upPrev + p.gapPenalty
  let leftScore := leftPrev + p.gapPenalty
  let maxScore := max diagonalScore (max upScore leftScore)
  let direction : Dir :=
    if maxScore = diagonalScore then Dir.diagonal
    else if maxScore = upScore then Dir.up
    else Dir.left
  ⟨maxScore, direction⟩

/-- Cell `(i, j)` of the global-alignment matrix
(`needlemanWunsch.ts`: `initializeMatrix` boundary plus the `fillMatrix`
loop body).  Each loop iteration reads only cells that already hold
their final value, so the filled matrix is this recurrence. -/
def nwCellRec (s1 s2 : List Char) (p : ScoringParams) (i j : ℕ) : Cell :=
  match i, j with
  | 0, j => ⟨(j : ℤ) * p.gapPenalty, if j = 0 then Dir.none else Dir.left⟩
  | i + 1, 0 => ⟨((i : ℤ) + 1) * p.gapPenalty, Dir.up⟩
  | i + 1, j + 1 =>
      computeCell p (s1.getD i '?') (s2.getD j '?')
        (nwCellRec s1 s2 p i j).score
        (nwCellRec s1 s2 p i (j + 1)).score
        (nwCellRec s1 s2 p (i + 1) j).score
termination_by (i, j)

/-- Modelled from the spec: the reference recurrence `F` with boundary
`F(i,0) = i·gap`, `F(0,j) = j·gap` and
`F(i,j) = max(F(i-1,j-1)+S(x_i,y_j), F(i-1,j)+gap, F(i,j-1)+gap)`,
`S` being the match score if the characters are equal, else the
mismatch score. -/
def specF (s1 s2 : List Char) (p : ScoringParams) (i j : ℕ) : ℤ :=
  match i, j with
  | 0, j => (j : ℤ) * p.gapPenalty
  | i + 1, 0 => ((i : ℤ) + 1) * p.gapPenalty
  | i + 1, j + 1 =>
      max (specF s1 s2 p i j +
            (if s1.getD i '?' = s2.getD j '?' then p.matchScore else p.mismatch))
        (max (specF s1 s2 p i (j + 1) + p.gapPenalty)
          (specF s1 s2 p (i + 1) j + p.gapPenalty))
termination_by (i, j)

/-- Row 0 of the global matrix (`initializeMatrix`: score `j·gap`,
direction `LEFT` except at the origin). -/
def nwRow0 (p : ScoringParams) (n : ℕ) : List Cell :=
  (List.range (n + 1)).map fun (j : ℕ) =>
    ⟨(j : ℤ) * p.gapPenalty, if j = 0 then Dir.none else Dir.left⟩

/-- Column-0 boundary cell of row `i` (`initializeMatrix`: score `i·gap`,
direction `UP` except at the origin). -/
def nwBoundary (p : ScoringParams) (i : ℕ) : Cell :=
  ⟨(i : ℤ) * p.gapPenalty, if i = 0 then Dir.none else Dir.up⟩

/-- Inner `j` loop of `fillMatrix`: walks the characters of `seq2`
(`jm1 = j - 1`), reading `matrix[i-1][j-1]`, `matrix[i-1][j]` from the
previous row and carrying the just-written cell `matrix[i][j-1]`. -/
def nwFillRowAux (p : ScoringParams) (c1 : Char) (prev : List Cell) :
    Cell → ℕ → List Char → List Cell
  | _, _, [] => []
  | leftCell, jm1, c2 :: cs =>
      let cell := computeCell p c1 c2 (prev.getD jm1 cellDflt).score
        (prev.getD (jm1 + 1) cellDflt).score leftCell.score
      cell :: nwFillRowAux p c1 prev cell (jm1 + 1) cs

/-- Outer `i` loop of `fillMatrix`: builds row `i` from row `i-1` for
each character of `seq1`. -/
def nwFillGo (p : ScoringParams) (s2 : List Char) :
    List Cell → ℕ → List Char → List (List Cell)
  | _, _, [] => []
  | prev, i, c1 :: rest =>
      let b := nwBoundary p i
      let row := b :: nwFillRowAux p c1 prev b 0 s2
      row :: nwFillGo p s2 row (i + 1) rest

/-- `initializeMatrix` followed by `fillMatrix` of `needlemanWunsch.ts`:
the full `(|seq1|+1) × (|seq2|+1)` matrix. -/
def nwFillMatrix (s1 s2 : List Char) (p : ScoringParams) : List (List Cell) :=
  nwRow0 p s2.length :: nwFillGo p s2 (nwRow0 p s2.length) 1 s1

/-- Total lookup `matrix[i][j]`. -/
def cellAt (M : List (List Cell)) (i j : ℕ) : Cell :=
  (M.getD i []).getD j cellDflt

/-- Output of a traceback: the two aligned strings and the walked path
(the source builds the path front-to-back and reverses it; we
accumulate it back-to-front, which yields the same, already-reversed
list). -/
structure TBOut where
  a1 : List Char
  a2 : List Char
  path : List (ℕ × ℕ)
deriving DecidableEq, Repr

/-- The `while (i > 0 || j > 0)` traceback loop shared verbatim by
`needlemanWunsch.ts` and the banded source (which differ only in the
matrix the direction is read from, abstracted here as `dirAt`).  Each
iteration pushes the current cell on the path, then follows the
recorded direction; `NONE` breaks; after the loop `(0,0)` is pushed.
Every executed step decreases `i + j`, so fuel `i + j` never runs out
on matrices produced by the fill; the fuel-exhaustion branch mirrors
the end-of-loop epilogue and is unreachable for them. -/
def tracebackGo (dirAt : ℕ → ℕ → Dir) (s1 s2 : List Char) :
    ℕ → ℕ → ℕ → List Char → List Char → List (ℕ × ℕ) → TBOut
  | 0, _, _, a1, a2, path => ⟨a1, a2, (0, 0) :: path⟩
  | fuel + 1, i, j, a1, a2, path =>
      if i = 0 ∧ j = 0 then ⟨a1, a2, (0, 0) :: path⟩
      else
        match dirAt i j with
        | Dir.diagonal =>
            tracebackGo dirAt s1 s2 fuel (i - 1) (j - 1)
              (s1.getD (i - 1) '?' :: a1) (s2.getD (j - 1) '?' :: a2)
              ((i, j) :: path)
        | Dir.up =>
            tracebackGo dirAt s1 s2 fuel (i - 1) j
              (s1.getD (i - 1) '?' :: a1) ('-' :: a2) ((i, j) :: path)
        | Dir.left =>
            tracebackGo dirAt s1 s2 fuel i (j - 1)
              ('-' :: a1) (s2.getD (j - 1) '?' :: a2) ((i, j) :: path)
        | Dir.none => ⟨a1, a2, (0, 0) :: (i, j) :: path⟩

/-- `traceback` of `needlemanWunsch.ts`, started at `(m, n)`. -/
def nwTraceback (M : List (List Cell)) (s1 s2 : List Char) : TBOut :=
  tracebackGo (fun i j => (cellAt M i j).direction) s1 s2
    (s1.length + s2.length) s1.length s2.length [] [] []

/-- Result of an alignment (`AlignmentResult`), minus the redundant
`steps` log (see the file comment). -/
structure AlignmentResult where
  matrix : List (List Cell)
  alignedSeq1 : List Char
  alignedSeq2 : List Char
  score : ℤ
  path : List (ℕ × ℕ)
deriving DecidableEq, Repr

/-- `globalAlignment` of `needlemanWunsch.ts`: initialize, fill,
traceback; the returned score is `matrix[rows-1][cols-1].score`. -/
def globalAlignment (s1 s2 : List Char) (p : ScoringParams) : AlignmentResult :=
  let M := nwFillMatrix s1 s2 p
  let tb := nwTraceback M s1 s2
  ⟨M, tb.a1, tb.a2, (cellAt M s1.length s2.length).score, tb.path⟩

/-! ## Bridge: the row-by-row fill equals the recursive characterisation -/

theorem computeCell_score (p : ScoringParams) (c1 c2 : Char) (a b c : ℤ) :
    (computeCell p c1 c2 a b c).score =
      max (a + getMatchScore c1 c2 p) (max (b + p.gapPenalty) (c + p.gapPenalty)) := rfl

theorem getD_map_range {α : Type} (f : ℕ → α) (n j : ℕ) (d : α) (h : j < n) :
    ((List.range n).map f).getD j d = f j := by
  rw [List.getD_eq_getElem?_getD, List.getElem?_map, List.getElem?_range h]
  rfl

theorem drop_cons_head {α : Type} {l : List α} {x d : α} {xs : List α} {k : ℕ}
    (h : l.drop k = x :: xs) : l.getD k d = x ∧ xs = l.drop (k + 1) ∧ k < l.length := by
  have hlen : l.length - k = xs.length + 1 := by
    have := congrArg List.length h
    simpa using this
  have hk : k < l.length := by omega
  refine ⟨?_, ?_, hk⟩
  · have h0 : l[k]? = some x := by
      have : (l.drop k)[0]? = some x := by rw [h]; simp
      rwa [List.getElem?_drop, Nat.add_zero] at this
    rw [List.getD_eq_getElem?_getD, h0]
    rfl
  · have : l.drop (k + 1) = (l.drop k).drop 1 := by
      rw [List.drop_drop, Nat.add_comm]
    rw [this, h]
    rfl

theorem nwRow0_getD (s1 s2 : List Char) (p : ScoringParams) (j : ℕ) (hj : j ≤ s2.length) :
    (nwRow0 p s2.length).getD j cellDflt = nwCellRec s1 s2 p 0 j := by
  rw [nwRow0, getD_map_range _ _ _ _ (by omega)]
  simp [nwCellRec]

theorem nwBoundary_eq (s1 s2 : List Char) (p : ScoringParams) (k : ℕ) :
    nwBoundary p (k + 1) = nwCellRec s1 s2 p (k + 1) 0 := by
  simp only [nwBoundary, nwCellRec]
  push_cast
  simp

theorem nwFillRowAux_spec (p : ScoringParams) (s1 s2 : List Char) (i : ℕ)
    (prev : List Cell)
    (hprev : ∀ j, j ≤ s2.length → prev.getD j cellDflt = nwCellRec s1 s2 p i j) :
    ∀ (cs : List Char) (jm1 : ℕ), cs = s2.drop jm1 →
      nwFillRowAux p (s1.getD i '?') prev (nwCellRec s1 s2 p (i + 1) jm1) jm1 cs =
        (List.range cs.length).map (fun t => nwCellRec s1 s2 p (i + 1) (jm1 + 1 + t)) := by
  intro cs
  induction cs with
  | nil => intro jm1 _; simp [nwFillRowAux]
  | cons c2 cs ih =>
    intro jm1 h
    obtain ⟨hc2, hcs, hk⟩ := drop_cons_head (d := '?') h.symm
    have hcell : computeCell p (s1.getD i '?') c2 (prev.getD jm1 cellDflt).score
        (prev.getD (jm1 + 1) cellDflt).score (nwCellRec s1 s2 p (i + 1) jm1).score =
        nwCellRec s1 s2 p (i + 1) (jm1 + 1) := by
      rw [hprev jm1 (by omega), hprev (jm1 + 1) (by omega), ← hc2]
      conv_rhs => rw [nwCellRec]
    rw [nwFillRowAux, hcell, ih (jm1 + 1) hcs]
    rw [List.length_cons, List.range_succ_eq_map, List.map_cons, List.map_map]
    refine congrArg₂ _ (by norm_num) ?_
    refine List.map_congr_left fun t _ => ?_
    have h' : jm1 + 1 + 1 + t = jm1 + 1 + (t + 1) := by omega
    simp [Function.comp, Nat.succ_eq_add_one, h']

theorem nwFillGo_spec (p : ScoringParams) (s1 s2 : List Char) :
    ∀ (rest : List Char) (k : ℕ) (prev : List Cell),
      rest = s1.drop k →
      (∀ j, j ≤ s2.length → prev.getD j cellDflt = nwCellRec s1 s2 p k j) →
      ∀ r j, j ≤ s2.length → r < rest.length →
        ((nwFillGo p s2 prev (k + 1) rest).getD r []).getD j cellDflt =
          nwCellRec s1 s2 p (k + 1 + r) j := by
  intro rest
  induction rest with
  | nil => intro k prev _ _ r j _ hr; simp at hr
  | cons c1 rest ih =>
    intro k prev hrest hprev r j hj hr
    obtain ⟨hc1, hrest', _⟩ := drop_cons_head (d := '?') hrest.symm
    have hc1' : c1 = s1.getD k '?' := hc1.symm
    have hrow : ∀ j, j ≤ s2.length →
        (nwBoundary p (k + 1) :: nwFillRowAux p c1 prev (nwBoundary p (k + 1)) 0 s2).getD j
            cellDflt = nwCellRec s1 s2 p (k + 1) j := by
      intro j hj
      match j with
      | 0 => simpa using nwBoundary_eq s1 s2 p k
      | j + 1 =>
        have haux : nwFillRowAux p c1 prev (nwBoundary p (k + 1)) 0 s2 =
            (List.range s2.length).map (fun t => nwCellRec s1 s2 p (k + 1) (0 + 1 + t)) := by
          rw [hc1', nwBoundary_eq s1 s2 p k]
          exact nwFillRowAux_spec p s1 s2 k prev hprev s2 0 rfl
        have : (nwBoundary p (k + 1) :: nwFillRowAux p c1 prev (nwBoundary p (k + 1)) 0 s2).getD
            (j + 1) cellDflt = (nwFillRowAux p c1 prev (nwBoundary p (k + 1)) 0 s2).getD j
            cellDflt := rfl
        rw [this, haux, getD_map_range _ _ _ _ (by omega)]
        norm_num [Nat.add_comm]
    match r with
    | 0 =>
      have : (nwFillGo p s2 prev (k + 1) (c1 :: rest)).getD 0 [] =
          nwBoundary p (k + 1) :: nwFillRowAux p c1 prev (nwBoundary p (k + 1)) 0 s2 := rfl
      rw [this, hrow j hj]
    | r + 1 =>
      have hstep : (nwFillGo p s2 prev (k + 1) (c1 :: rest)).getD (r + 1) [] =
          (nwFillGo p s2
            (nwBoundary p (k + 1) :: nwFillRowAux p c1 prev (nwBoundary p (k + 1)) 0 s2)
            (k + 1 + 1) rest).getD r [] := rfl
      rw [hstep]
      have := ih (k + 1)
        (nwBoundary p (k + 1) :: nwFillRowAux p c1 prev (nwBoundary p (k + 1)) 0 s2)
        hrest' hrow r j hj (by simpa using hr)
      rw [this]
      refine congrArg₂ _ (by omega) rfl

theorem cellAt_nwFillMatrix (s1 s2 : List Char) (p : ScoringParams) (i j : ℕ)
    (hi : i ≤ s1.length) (hj : j ≤ s2.length) :
    cellAt (nwFillMatrix s1 s2 p) i j = nwCellRec s1 s2 p i j := by
  match i with
  | 0 =>
    have : cellAt (nwFillMatrix s1 s2 p) 0 j = (nwRow0 p s2.length).getD j cellDflt := rfl
    rw [this, nwRow0_getD s1 s2 p j hj]
  | i + 1 =>
    have : cellAt (nwFillMatrix s1 s2 p) (i + 1) j =
        ((nwFillGo p s2 (nwRow0 p s2.length) 1 s1).getD i []).getD j cellDflt := rfl
    rw [this]
    have := nwFillGo_spec p s1 s2 s1 0 (nwRow0 p s2.length) rfl
      (fun j hj => nwRow0_getD s1 s2 p j hj) i j hj (by omega)
    simpa [Nat.add_comm] using this

theorem nwCellRec_score_eq_specF (s1 s2 : List Char) (p : ScoringParams) :
    ∀ N i j, i + j ≤ N → (nwCellRec s1 s2 p i j).score = specF s1 s2 p i j := by
  intro N
  induction N with
  | zero =>
    intro i j h
    have hi : i = 0 := by omega
    have hj : j = 0 := by omega
    subst hi; subst hj
    simp [nwCellRec, specF]
  | succ N ih =>
    intro i j h
    match i, j with
    | 0, j => simp [nwCellRec, specF]
    | i + 1, 0 => simp [nwCellRec, specF]
    | i + 1, j + 1 =>
      rw [nwCellRec, specF, computeCell_score,
        ih i j (by omega), ih i (j + 1) (by omega), ih (i + 1) j (by omega)]
      rfl

/-! ## C1: global alignment score equals the reference recurrence -/

/-- C1: for every pair of non-empty sequences and every `ScoringParams`,
`globalAlignment` returns score `F(m, n)`, where `F` is the reference
recurrence with boundary `F(i,0) = i·gap`, `F(0,j) = j·gap` and
`F(i,j) = max(F(i-1,j-1)+S(x_i,y_j), F(i-1,j)+gap, F(i,j-1)+gap)`. -/
theorem c1_global_score_matches_reference (s1 s2 : List Char) (p : ScoringParams)
    (h1 : s1 ≠ []) (h2 : s2 ≠ []) :
    (globalAlignment s1 s2 p).score = specF s1 s2 p s1.length s2.length := by
  have hcell : (globalAlignment s1 s2 p).score =
      (cellAt (nwFillMatrix s1 s2 p) s1.length s2.length).score := rfl
  rw [hcell, cellAt_nwFillMatrix s1 s2 p _ _ le_rfl le_rfl]
  exact nwCellRec_score_eq_specF s1 s2 p (s1.length + s2.length) _ _ le_rfl

/-- Witness for C1 at a concrete input. -/
theorem c1_witness :
    (['A', 'G'] : List Char) ≠ [] ∧ (['A'] : List Char) ≠ [] ∧
      (globalAlignment ['A', 'G'] ['A'] ⟨1, -1, -2⟩).score =
        specF ['A', 'G'] ['A'] ⟨1, -1, -2⟩ 2 1 :=
  ⟨by decide, by decide,
    c1_global_score_matches_reference ['A', 'G'] ['A'] ⟨1, -1, -2⟩ (by decide) (by decide)⟩

/-! ## C9: the concrete GCATGCG / GATTACA scenario -/

/-- C9 counterexample: on `seq1 = "GCATGCG"`, `seq2 = "GATTACA"` with
`match = 1`, `mismatch = -1`, `gapPenalty = -2`, the global alignment
score is `-1`, not `0` as the claim states. -/
theorem c9_counterexample :
    (globalAlignment ['G', 'C', 'A', 'T', 'G', 'C', 'G']
        ['G', 'A', 'T', 'T', 'A', 'C', 'A'] ⟨1, -1, -2⟩).score = -1 ∧
    ¬ (globalAlignment ['G', 'C', 'A', 'T', 'G', 'C', 'G']
        ['G', 'A', 'T', 'T', 'A', 'C', 'A'] ⟨1, -1, -2⟩).score = 0 := by
  constructor
  · decide
  · decide

/-- C9 amended: on the concrete scenario the score is `-1` (the
traceback path does contain exactly 8 cells - 7 characters plus the
origin - as claimed). -/
theorem c9_amended :
    (globalAlignment ['G', 'C', 'A', 'T', 'G', 'C', 'G']
        ['G', 'A', 'T', 'T', 'A', 'C', 'A'] ⟨1, -1, -2⟩).score = -1 ∧
    (globalAlignment ['G', 'C', 'A', 'T', 'G', 'C', 'G']
        ['G', 'A', 'T', 'T', 'A', 'C', 'A'] ⟨1, -1, -2⟩).path.length = 8 := by
  constructor
  · decide
  · decide

/-! ## Generic DP fill

The local, dovetail and banded sources repeat the same row-major
double loop with a different boundary and loop body.  `dpFillMatrix`
is that loop shape, parameterised by the cell type, the body applied
at `(i, j)` (`i, j ≥ 1`) to the final values of `matrix[i-1][j-1]`,
`matrix[i-1][j]`, `matrix[i][j-1]`, the row-0 contents and the
column-0 boundary; `dpCellRec` is its recursive characterisation. -/

def dpFillRowAux {γ : Type} (dflt : γ) (body : ℕ → ℕ → γ → γ → γ → γ)
    (prev : List γ) (i : ℕ) : γ → ℕ → ℕ → List γ
  | _, _, 0 => []
  | leftCell, jm1, cnt + 1 =>
      let cell := body i (jm1 + 1) (prev.getD jm1 dflt) (prev.getD (jm1 + 1) dflt) leftCell
      cell :: dpFillRowAux dflt body prev i cell (jm1 + 1) cnt

def dpFillGo {γ : Type} (dflt : γ) (body : ℕ → ℕ → γ → γ → γ → γ)
    (bound : ℕ → γ) (n : ℕ) : List γ → ℕ → ℕ → List (List γ)
  | _, _, 0 => []
  | prev, i, cnt + 1 =>
      let row := bound i :: dpFillRowAux dflt body prev i (bound i) 0 n
      row :: dpFillGo dflt body bound n row (i + 1) cnt

def dpFillMatrix {γ : Type} (dflt : γ) (body : ℕ → ℕ → γ → γ → γ → γ)
    (row0 : List γ) (bound : ℕ → γ) (m n : ℕ) : List (List γ) :=
  row0 :: dpFillGo dflt body bound n row0 1 m

def dpCellRec {γ : Type} (body : ℕ → ℕ → γ → γ → γ → γ)
    (top bound : ℕ → γ) (i j : ℕ) : γ :=
  match i, j with
  | 0, j => top j
  | i + 1, 0 => bound (i + 1)
  | i + 1, j + 1 =>
      body (i + 1) (j + 1) (dpCellRec body top bound i j)
        (dpCellRec body top bound i (j + 1)) (dpCellRec body top bound (i + 1) j)
termination_by (i, j)

theorem dpFillRowAux_spec {γ : Type} (dflt : γ) (body : ℕ → ℕ → γ → γ → γ → γ)
    (top bound : ℕ → γ) (n : ℕ) (i : ℕ) (prev : List γ)
    (hprev : ∀ j, j ≤ n → prev.getD j dflt = dpCellRec body top bound i j) :
    ∀ (cnt jm1 : ℕ), jm1 + cnt ≤ n →
      dpFillRowAux dflt body prev (i + 1) (dpCellRec body top bound (i + 1) jm1) jm1 cnt =
        (List.range cnt).map (fun t => dpCellRec body top bound (i + 1) (jm1 + 1 + t)) := by
  intro cnt
  induction cnt with
  | zero => intro jm1 _; simp [dpFillRowAux]
  | succ cnt ih =>
    intro jm1 h
    have hcell : body (i + 1) (jm1 + 1) (prev.getD jm1 dflt) (prev.getD (jm1 + 1) dflt)
        (dpCellRec body top bound (i + 1) jm1) = dpCellRec body top bound (i + 1) (jm1 + 1) := by
      rw [hprev jm1 (by omega), hprev (jm1 + 1) (by omega)]
      conv_rhs => rw [dpCellRec]
    rw [dpFillRowAux, hcell, ih (jm1 + 1) (by omega)]
    rw [List.range_succ_eq_map, List.map_cons, List.map_map]
    refine congrArg₂ _ (by norm_num) ?_
    refine List.map_congr_left fun t _ => ?_
    have h' : jm1 + 1 + 1 + t = jm1 + 1 + (t + 1) := by omega
    simp [Function.comp, Nat.succ_eq_add_one, h']

theorem dpFillGo_spec {γ : Type} (dflt : γ) (body : ℕ → ℕ → γ → γ → γ → γ)
    (top bound : ℕ → γ) (n : ℕ)
    (hbound : ∀ i, bound (i + 1) = dpCellRec body top bound (i + 1) 0) :
    ∀ (cnt k : ℕ) (prev : List γ),
      (∀ j, j ≤ n → prev.getD j dflt = dpCellRec body top bound k j) →
      ∀ r j, j ≤ n → r < cnt →
        ((dpFillGo dflt body bound n prev (k + 1) cnt).getD r []).getD j dflt =
          dpCellRec body top bound (k + 1 + r) j := by
  intro cnt
  induction cnt with
  | zero => intro k prev _ r j _ hr; omega
  | succ cnt ih =>
    intro k prev hprev r j hj hr
    have hrow : ∀ j, j ≤ n →
        (bound (k + 1) :: dpFillRowAux dflt body prev (k + 1) (bound (k + 1)) 0 n).getD j dflt =
          dpCellRec body top bound (k + 1) j := by
      intro j hj
      match j with
      | 0 => simpa using hbound k
      | j + 1 =>
        have haux : dpFillRowAux dflt body prev (k + 1) (bound (k + 1)) 0 n =
            (List.range n).map (fun t => dpCellRec body top bound (k + 1) (0 + 1 + t)) := by
          rw [hbound k]
          exact dpFillRowAux_spec dflt body top bound n k prev hprev n 0 (by omega)
        have hstep : (bound (k + 1) ::
            dpFillRowAux dflt body prev (k + 1) (bound (k + 1)) 0 n).getD (j + 1) dflt =
            (dpFillRowAux dflt body prev (k + 1) (bound (k + 1)) 0 n).getD j dflt := rfl
        rw [hstep, haux, getD_map_range _ _ _ _ (by omega)]
        norm_num [Nat.add_comm]
    match r with
    | 0 => exact hrow j hj
    | r + 1 =>
      have hstep : (dpFillGo dflt body bound n prev (k + 1) (cnt + 1)).getD (r + 1) [] =
          (dpFillGo dflt body bound n
            (bound (k + 1) :: dpFillRowAux dflt body prev (k + 1) (bound (k + 1)) 0 n)
            (k + 1 + 1) cnt).getD r [] := rfl
      rw [hstep, ih (k + 1) _ hrow r j hj (by omega)]
      refine congrArg₂ _ (by omega) rfl

theorem dpFillMatrix_spec {γ : Type} (dflt : γ) (body : ℕ → ℕ → γ → γ → γ → γ)
    (top bound : ℕ → γ) (m n : ℕ) (row0 : List γ)
    (hrow0 : ∀ j, j ≤ n → row0.getD j dflt = top j)
    (hbound : ∀ i, bound (i + 1) = dpCellRec body top bound (i + 1) 0) :
    ∀ i j, i ≤ m → j ≤ n →
      ((dpFillMatrix dflt body row0 bound m n).getD i []).getD j dflt =
        dpCellRec body top bound i j := by
  intro i j hi hj
  match i with
  | 0 =>
    have : ((dpFillMatrix dflt body row0 bound m n).getD 0 []).getD j dflt =
        row0.getD j dflt := rfl
    rw [this, hrow0 j hj]
    simp [dpCellRec]
  | i + 1 =>
    have hstep : ((dpFillMatrix dflt body row0 bound m n).getD (i + 1) []).getD j dflt =
        ((dpFillGo dflt body bound n row0 1 m).getD i []).getD j dflt := rfl
    have htop : ∀ j, j ≤ n → row0.getD j dflt = dpCellRec body top bound 0 j := by
      intro j hj
      rw [hrow0 j hj]
      simp [dpCellRec]
    rw [hstep, dpFillGo_spec dflt body top bound n hbound m 0 row0 htop i j hj (by omega)]
    refine congrArg₂ _ (by omega) rfl

/-! ## Banded alignment (`banded.ts`, `src/unnamed/part_006`) -/

/-- `BandedParams`: `ScoringParams` plus `bandwidth` (an integer ≥ 0 per
the data model; embedded as `ℕ`). -/
structure BandedParams where
  matchScore : ℤ
  mismatch : ℤ
  gapPenalty : ℤ
  bandwidth : ℕ
deriving DecidableEq, Repr

/-- The `ScoringParams` part of a `BandedParams`. -/
def bpScoring (p : BandedParams) : ScoringParams :=
  ⟨p.matchScore, p.mismatch, p.gapPenalty⟩

/-- A banded matrix cell: the score may be `-Infinity` (`⊥`). -/
structure BCell where
  score : WithBot ℤ
  direction : Dir
deriving DecidableEq, Repr

/-- Default used by the total lookup; never read at in-range indices. -/
def bCellDflt : BCell := ⟨0, Dir.none⟩

/-- `isInBand`: `Math.abs(row - col) <= bandwidth`. -/
def isInBand (row col bandwidth : ℕ) : Bool :=
  ((row : ℤ) - (col : ℤ)).natAbs ≤ bandwidth

/-- Body of the banded fill loop at an in-band cell `(i, j)` (`i, j ≥ 1`):
each candidate is taken only if its source cell lies in the band,
otherwise it is `-Infinity`; then the same max / direction chain as the
global fill. -/
def bdComputeCell (p : BandedParams) (c1 c2 : Char) (dIn uIn lIn : Bool)
    (diagPrev upPrev leftPrev : WithBot ℤ) : BCell :=
  let matchScore : ℤ := if c1 = c2 then p.matchScore else p.mismatch
  let diagonalScore : WithBot ℤ := if dIn then diagPrev + (matchScore : WithBot ℤ) else ⊥
  let upScore : WithBot ℤ := if uIn then upPrev + (p.gapPenalty : WithBot ℤ) else ⊥
  let leftScore : WithBot ℤ := if lIn then leftPrev + (p.gapPenalty : WithBot ℤ) else ⊥
  let maxScore := max diagonalScore (max upScore leftScore)
  let direction : Dir :=
    if maxScore = diagonalScore then Dir.diagonal
    else if maxScore = upScore then Dir.up
    else Dir.left
  ⟨maxScore, direction⟩

/-- Fill body at `(i, j)` with `i, j ≥ 1`: out-of-band cells keep their
initialized `⟨-∞, NONE⟩` (the loop bounds `jStart = max(1, i-bandwidth)`,
`jEnd = min(cols-1, i+bandwidth)` together with the `isInBand` guard
visit exactly the in-band cells with `j ≥ 1`). -/
def bdBody (s1 s2 : List Char) (p : BandedParams) (i j : ℕ)
    (dl up l : BCell) : BCell :=
  if isInBand i j p.bandwidth then
    bdComputeCell p (s1.getD (i - 1) '?') (s2.getD (j - 1) '?')
      (isInBand (i - 1) (j - 1) p.bandwidth) (isInBand (i - 1) j p.bandwidth)
      (isInBand i (j - 1) p.bandwidth) dl.score up.score l.score
  else ⟨⊥, Dir.none⟩

/-- Row 0 after initialization: in-band cells (`j ≤ bandwidth`) get
`j·gap` / `LEFT` (origin: `NONE`), out-of-band cells stay `⟨-∞, NONE⟩`. -/
def bdTop (p : BandedParams) (j : ℕ) : BCell :=
  if j ≤ p.bandwidth then
    ⟨((j : ℤ) * p.gapPenalty : ℤ), if j = 0 then Dir.none else Dir.left⟩
  else ⟨⊥, Dir.none⟩

/-- Column 0 after initialization (rows `i ≥ 1`). -/
def bdBound (p : BandedParams) (i : ℕ) : BCell :=
  if i ≤ p.bandwidth then ⟨(((i : ℤ)) * p.gapPenalty : ℤ), Dir.up⟩
  else ⟨⊥, Dir.none⟩

/-- Row 0 of the banded matrix as a list. -/
def bdRow0 (p : BandedParams) (n : ℕ) : List BCell :=
  (List.range (n + 1)).map fun (j : ℕ) => bdTop p j

/-- The banded `initializeMatrix` + `fillMatrix`. -/
def bdFillMatrix (s1 s2 : List Char) (p : BandedParams) : List (List BCell) :=
  dpFillMatrix bCellDflt (bdBody s1 s2 p) (bdRow0 p s2.length) (bdBound p)
    s1.length s2.length

/-- Cell `(i, j)` of the banded matrix, recursively. -/
def bdCellRec (s1 s2 : List Char) (p : BandedParams) (i j : ℕ) : BCell :=
  dpCellRec (bdBody s1 s2 p) (bdTop p) (bdBound p) i j

/-- Total lookup in a banded matrix. -/
def bCellAt (M : List (List BCell)) (i j : ℕ) : BCell :=
  (M.getD i []).getD j bCellDflt

theorem bCellAt_bdFillMatrix (s1 s2 : List Char) (p : BandedParams) (i j : ℕ)
    (hi : i ≤ s1.length) (hj : j ≤ s2.length) :
    bCellAt (bdFillMatrix s1 s2 p) i j = bdCellRec s1 s2 p i j := by
  refine dpFillMatrix_spec bCellDflt (bdBody s1 s2 p) (bdTop p) (bdBound p)
    s1.length s2.length (bdRow0 p s2.length) ?_ ?_ i j hi hj
  · intro j hj
    rw [bdRow0, getD_map_range _ _ _ _ (by omega)]
  · intro i
    rw [dpCellRec]

/-- The banded result; its `score` may be `-Infinity`.  Like
`AlignmentResult` it carries no bandwidth field, nominal or effective -
this is exactly what the source's `bandedAlignment` returns. -/
structure BandedResult where
  matrix : List (List BCell)
  alignedSeq1 : List Char
  alignedSeq2 : List Char
  score : WithBot ℤ
  path : List (ℕ × ℕ)
deriving DecidableEq, Repr

/-- `traceback` of the banded source: line-identical to the global one
(the `console.warn` when `(m,n)` is out of band only logs). -/
def bdTraceback (M : List (List BCell)) (s1 s2 : List Char) : TBOut :=
  tracebackGo (fun i j => (bCellAt M i j).direction) s1 s2
    (s1.length + s2.length) s1.length s2.length [] [] []

/-- `bandedAlignment`: widens the bandwidth to
`max(params.bandwidth, ||seq1| - |seq2||)`, then initializes, fills and
backtraces with the widened value; the score is
`matrix[rows-1][cols-1].score`. -/
def bandedAlignment (s1 s2 : List Char) (p : BandedParams) : BandedResult :=
  let minBandwidth : ℕ := ((s1.length : ℤ) - (s2.length : ℤ)).natAbs
  let effectiveBandwidth : ℕ := max p.bandwidth minBandwidth
  let p' : BandedParams := ⟨p.matchScore, p.mismatch, p.gapPenalty, effectiveBandwidth⟩
  let M := bdFillMatrix s1 s2 p'
  let tb := bdTraceback M s1 s2
  ⟨M, tb.a1, tb.a2, (bCellAt M s1.length s2.length).score, tb.path⟩

/-- `isBandedSuitable` of the banded source. -/
def isBandedSuitable (s1 s2 : List Char) (bandwidth : ℕ) : Bool :=
  ((s1.length : ℤ) - (s2.length : ℤ)).natAbs ≤ bandwidth

/-! ## C2: a wide enough band reproduces global alignment -/

theorem bdComputeCell_coe (p : BandedParams) (c1 c2 : Char) (a b c : ℤ) :
    bdComputeCell p c1 c2 true true true (a : WithBot ℤ) (b : WithBot ℤ) (c : WithBot ℤ) =
      ⟨((computeCell (bpScoring p) c1 c2 a b c).score : WithBot ℤ),
       (computeCell (bpScoring p) c1 c2 a b c).direction⟩ := by
  simp only [bdComputeCell, computeCell, getMatchScore, bpScoring, if_true,
    ← WithBot.coe_add, ← WithBot.coe_max, WithBot.coe_inj]

theorem isInBand_of_le {i j m n bw : ℕ} (hi : i ≤ m) (hj : j ≤ n)
    (h : max m n ≤ bw) : isInBand i j bw = true := by
  simp only [isInBand, decide_eq_true_eq]
  omega

theorem bdCellRec_eq_nw (s1 s2 : List Char) (p : BandedParams)
    (hbw : max s1.length s2.length ≤ p.bandwidth) :
    ∀ N i j, i + j ≤ N → i ≤ s1.length → j ≤ s2.length →
      bdCellRec s1 s2 p i j =
        ⟨((nwCellRec s1 s2 (bpScoring p) i j).score : WithBot ℤ),
         (nwCellRec s1 s2 (bpScoring p) i j).direction⟩ := by
  intro N
  induction N with
  | zero =>
    intro i j h hi hj
    have hi0 : i = 0 := by omega
    have hj0 : j = 0 := by omega
    subst hi0; subst hj0
    simp [bdCellRec, dpCellRec, bdTop, nwCellRec]
  | succ N ih =>
    intro i j h hi hj
    match i, j with
    | 0, j =>
      have hjb : j ≤ p.bandwidth := by omega
      simp [bdCellRec, dpCellRec, bdTop, nwCellRec, hjb, bpScoring]
    | i + 1, 0 =>
      have hib : i + 1 ≤ p.bandwidth := by omega
      simp only [bdCellRec, dpCellRec, bdBound, nwCellRec, if_pos hib]
      push_cast
      rfl
    | i + 1, j + 1 =>
      have hb1 : isInBand (i + 1) (j + 1) p.bandwidth = true :=
        isInBand_of_le hi hj hbw
      have hb2 : isInBand i j p.bandwidth = true :=
        isInBand_of_le (by omega) (by omega) hbw
      have hb3 : isInBand i (j + 1) p.bandwidth = true :=
        isInBand_of_le (by omega) hj hbw
      have hb4 : isInBand (i + 1) j p.bandwidth = true :=
        isInBand_of_le hi (by omega) hbw
      have hstep : bdCellRec s1 s2 p (i + 1) (j + 1) =
          bdBody s1 s2 p (i + 1) (j + 1) (bdCellRec s1 s2 p i j)
            (bdCellRec s1 s2 p i (j + 1)) (bdCellRec s1 s2 p (i + 1) j) := by
        rw [bdCellRec, dpCellRec]
        rfl
      rw [hstep, ih i j (by omega) (by omega) (by omega),
        ih i (j + 1) (by omega) (by omega) hj,
        ih (i + 1) j (by omega) hi (by omega)]
      simp only [bdBody, hb1, hb2, hb3, hb4, if_true, Nat.add_sub_cancel]
      rw [bdComputeCell_coe]
      conv_rhs => rw [nwCellRec]

theorem tracebackGo_congr (m n : ℕ) (d1 d2 : ℕ → ℕ → Dir) (s1 s2 : List Char)
    (h : ∀ i j, i ≤ m → j ≤ n → d1 i j = d2 i j) :
    ∀ fuel i j a1 a2 path, i ≤ m → j ≤ n →
      tracebackGo d1 s1 s2 fuel i j a1 a2 path =
        tracebackGo d2 s1 s2 fuel i j a1 a2 path := by
  intro fuel
  induction fuel with
  | zero => intro i j a1 a2 path _ _; rfl
  | succ fuel ih =>
    intro i j a1 a2 path hi hj
    rw [tracebackGo, tracebackGo]
    by_cases h0 : i = 0 ∧ j = 0
    · rw [if_pos h0, if_pos h0]
    · rw [if_neg h0, if_neg h0, h i j hi hj]
      cases d2 i j with
      | diagonal => exact ih _ _ _ _ _ (by omega) (by omega)
      | up => exact ih _ _ _ _ _ (by omega) hj
      | left => exact ih _ _ _ _ _ hi (by omega)
      | none => rfl

/-- C2: with `bandwidth ≥ max(|seq1|, |seq2|)` the banded alignment
returns the same score (as a finite value) and the same aligned strings
as unrestricted global alignment under the same `match`, `mismatch`,
`gapPenalty`. -/
theorem c2_wide_band_equals_global (s1 s2 : List Char) (p : BandedParams)
    (h1 : s1 ≠ []) (h2 : s2 ≠ []) (hbw : max s1.length s2.length ≤ p.bandwidth) :
    (bandedAlignment s1 s2 p).score =
        ((globalAlignment s1 s2 (bpScoring p)).score : WithBot ℤ) ∧
      (bandedAlignment s1 s2 p).alignedSeq1 =
        (globalAlignment s1 s2 (bpScoring p)).alignedSeq1 ∧
      (bandedAlignment s1 s2 p).alignedSeq2 =
        (globalAlignment s1 s2 (bpScoring p)).alignedSeq2 := by
  have heff : max p.bandwidth (((s1.length : ℤ) - (s2.length : ℤ)).natAbs) = p.bandwidth := by
    omega
  have hp' : (⟨p.matchScore, p.mismatch, p.gapPenalty,
      max p.bandwidth (((s1.length : ℤ) - (s2.length : ℤ)).natAbs)⟩ : BandedParams) = p := by
    rw [heff]
  have hcell : ∀ i j, i ≤ s1.length → j ≤ s2.length →
      bCellAt (bdFillMatrix s1 s2 p) i j =
        ⟨((cellAt (nwFillMatrix s1 s2 (bpScoring p)) i j).score : WithBot ℤ),
         (cellAt (nwFillMatrix s1 s2 (bpScoring p)) i j).direction⟩ := by
    intro i j hi hj
    rw [bCellAt_bdFillMatrix s1 s2 p i j hi hj, cellAt_nwFillMatrix s1 s2 (bpScoring p) i j hi hj]
    exact bdCellRec_eq_nw s1 s2 p hbw (i + j) i j le_rfl hi hj
  have htb : bdTraceback (bdFillMatrix s1 s2 p) s1 s2 =
      nwTraceback (nwFillMatrix s1 s2 (bpScoring p)) s1 s2 := by
    rw [bdTraceback, nwTraceback]
    refine tracebackGo_congr s1.length s2.length _ _ s1 s2 ?_ _ _ _ _ _ _ le_rfl le_rfl
    intro i j hi hj
    rw [hcell i j hi hj]
  constructor
  · show (bCellAt (bdFillMatrix s1 s2
      ⟨p.matchScore, p.mismatch, p.gapPenalty,
        max p.bandwidth (((s1.length : ℤ) - (s2.length : ℤ)).natAbs)⟩) s1.length s2.length).score = _
    rw [hp', hcell s1.length s2.length le_rfl le_rfl]
    rfl
  · constructor
    · show (bdTraceback (bdFillMatrix s1 s2
        ⟨p.matchScore, p.mismatch, p.gapPenalty,
          max p.bandwidth (((s1.length : ℤ) - (s2.length : ℤ)).natAbs)⟩) s1 s2).a1 = _
      rw [hp', htb]
      rfl
    · show (bdTraceback (bdFillMatrix s1 s2
        ⟨p.matchScore, p.mismatch, p.gapPenalty,
          max p.bandwidth (((s1.length : ℤ) - (s2.length : ℤ)).natAbs)⟩) s1 s2).a2 = _
      rw [hp', htb]
      rfl

/-- Witness for C2 at a concrete input. -/
theorem c2_witness :
    (['A', 'G'] : List Char) ≠ [] ∧ (['A'] : List Char) ≠ [] ∧
      max (['A', 'G'] : List Char).length (['A'] : List Char).length ≤ 5 ∧
      ((bandedAlignment ['A', 'G'] ['A'] ⟨1, -1, -2, 5⟩).score =
          ((globalAlignment ['A', 'G'] ['A'] (bpScoring ⟨1, -1, -2, 5⟩)).score : WithBot ℤ) ∧
        (bandedAlignment ['A', 'G'] ['A'] ⟨1, -1, -2, 5⟩).alignedSeq1 =
          (globalAlignment ['A', 'G'] ['A'] (bpScoring ⟨1, -1, -2, 5⟩)).alignedSeq1 ∧
        (bandedAlignment ['A', 'G'] ['A'] ⟨1, -1, -2, 5⟩).alignedSeq2 =
          (globalAlignment ['A', 'G'] ['A'] (bpScoring ⟨1, -1, -2, 5⟩)).alignedSeq2) :=
  ⟨by decide, by decide, by decide,
    c2_wide_band_equals_global ['A', 'G'] ['A'] ⟨1, -1, -2, 5⟩ (by decide) (by decide) (by decide)⟩

/-! ## C5: effective bandwidth is used, but not surfaced -/

/-- C5 amended: `bandedAlignment` computes with the effective bandwidth
`max(k, ||seq1| - |seq2||)` - calling it with the nominal `k` returns
exactly what calling it with the effective bandwidth returns. -/
theorem c5_amended_effective_bandwidth (s1 s2 : List Char) (p : BandedParams) :
    bandedAlignment s1 s2 p =
      bandedAlignment s1 s2
        ⟨p.matchScore, p.mismatch, p.gapPenalty,
          max p.bandwidth (((s1.length : ℤ) - (s2.length : ℤ)).natAbs)⟩ := by
  have heff : max (max p.bandwidth (((s1.length : ℤ) - (s2.length : ℤ)).natAbs))
      (((s1.length : ℤ) - (s2.length : ℤ)).natAbs) =
      max p.bandwidth (((s1.length : ℤ) - (s2.length : ℤ)).natAbs) := by
    omega
  rw [bandedAlignment, bandedAlignment]
  rw [heff]

/-- C5 counterexample: the returned `BandedResult` does not surface the
effective bandwidth.  Two calls on `seq1 = seq2 = "A"` whose effective
bandwidths differ (1 and 2) return identical results, so no function of
the result can recover the effective bandwidth. -/
theorem c5_counterexample :
    bandedAlignment ['A'] ['A'] ⟨1, -1, -2, 1⟩ = bandedAlignment ['A'] ['A'] ⟨1, -1, -2, 2⟩ ∧
      max (1 : ℕ) ((((['A'] : List Char).length : ℤ) - ((['A'] : List Char).length : ℤ)).natAbs) ≠
        max (2 : ℕ) ((((['A'] : List Char).length : ℤ) - ((['A'] : List Char).length : ℤ)).natAbs) ∧
      ¬ ∃ f : BandedResult → ℕ, ∀ (s1 s2 : List Char) (p : BandedParams),
        f (bandedAlignment s1 s2 p) =
          max p.bandwidth (((s1.length : ℤ) - (s2.length : ℤ)).natAbs) := by
  have heq : bandedAlignment ['A'] ['A'] ⟨1, -1, -2, 1⟩ =
      bandedAlignment ['A'] ['A'] ⟨1, -1, -2, 2⟩ := by decide
  refine ⟨heq, by decide, ?_⟩
  rintro ⟨f, hf⟩
  have hA := hf ['A'] ['A'] ⟨1, -1, -2, 1⟩
  have hB := hf ['A'] ['A'] ⟨1, -1, -2, 2⟩
  rw [heq] at hA
  rw [hA] at hB
  simp at hB

/-! ## Local alignment (Smith-Waterman, `src/unnamed/part_006`) -/

/-- Body of the local fill loop: the three candidates, floored at 0
(`Math.max(0, diagonalScore, upScore, leftScore)`); the direction chain
tests the `0` floor first (`NONE` when the maximum is 0). -/
def swComputeCell (p : ScoringParams) (c1 c2 : Char) (dl up l : ℤ) : Cell :=
  let matchScore := getMatchScore c1 c2 p
  let diagonalScore := dl + matchScore
  let upScore := up + p.gapPenalty
  let leftScore := l + p.gapPenalty
  let maxScore := max 0 (max diagonalScore (max upScore leftScore))
  let direction : Dir :=
    if maxScore = 0 then Dir.none
    else if maxScore = diagonalScore then Dir.diagonal
    else if maxScore = upScore then Dir.up
    else Dir.left
  ⟨maxScore, direction⟩

/-- Local fill body at `(i, j)`, `i, j ≥ 1`. -/
def swBody (s1 s2 : List Char) (p : ScoringParams) (i j : ℕ) (dl up l : Cell) : Cell :=
  swComputeCell p (s1.getD (i - 1) '?') (s2.getD (j - 1) '?') dl.score up.score l.score

/-- Local boundary: every row-0 / column-0 cell is `⟨0, NONE⟩`. -/
def swZeroCell (_ : ℕ) : Cell := ⟨0, Dir.none⟩

/-- The local `initializeMatrix` (all zeros) + `fillMatrix`. -/
def swFillMatrix (s1 s2 : List Char) (p : ScoringParams) : List (List Cell) :=
  dpFillMatrix cellDflt (swBody s1 s2 p)
    ((List.range (s2.length + 1)).map swZeroCell) swZeroCell s1.length s2.length

/-- Cell `(i, j)` of the local matrix, recursively. -/
def swCellRec (s1 s2 : List Char) (p : ScoringParams) (i j : ℕ) : Cell :=
  dpCellRec (swBody s1 s2 p) swZeroCell swZeroCell i j

theorem cellAt_swFillMatrix (s1 s2 : List Char) (p : ScoringParams) (i j : ℕ)
    (hi : i ≤ s1.length) (hj : j ≤ s2.length) :
    cellAt (swFillMatrix s1 s2 p) i j = swCellRec s1 s2 p i j := by
  refine dpFillMatrix_spec cellDflt (swBody s1 s2 p) swZeroCell swZeroCell
    s1.length s2.length _ ?_ ?_ i j hi hj
  · intro j hj
    rw [getD_map_range _ _ _ _ (by omega)]
  · intro i
    rw [dpCellRec]

/-- The `maxCell` tracking of the local fill: the source compares each
cell's just-computed `maxScore` (its final value) against the running
best with a strict `>`, scanning in row-major order from `(0,0,0)`;
scanning the finished matrix in the same order is the same
computation. -/
def swMaxCell (M : List (List Cell)) (m n : ℕ) : ℕ × ℕ × ℤ :=
  (List.range m).foldl (fun acc i0 =>
    (List.range n).foldl (fun acc j0 =>
      if (cellAt M (i0 + 1) (j0 + 1)).score > acc.2.2 then
        (i0 + 1, j0 + 1, (cellAt M (i0 + 1) (j0 + 1)).score)
      else acc) acc) (0, 0, 0)

/-- The local traceback loop
`while (i > 0 && j > 0 && matrix[i][j].score > 0)`: a `NONE` direction
pushes the cell and breaks; loop exit does not push `(0,0)`. -/
def swTracebackGo (M : List (List Cell)) (s1 s2 : List Char) :
    ℕ → ℕ → ℕ → List Char → List Char → List (ℕ × ℕ) → TBOut
  | 0, _, _, a1, a2, path => ⟨a1, a2, path⟩
  | fuel + 1, i, j, a1, a2, path =>
      if i = 0 ∨ j = 0 ∨ ¬ 0 < (cellAt M i j).score then ⟨a1, a2, path⟩
      else
        match (cellAt M i j).direction with
        | Dir.diagonal =>
            swTracebackGo M s1 s2 fuel (i - 1) (j - 1)
              (s1.getD (i - 1) '?' :: a1) (s2.getD (j - 1) '?' :: a2) ((i, j) :: path)
        | Dir.up =>
            swTracebackGo M s1 s2 fuel (i - 1) j
              (s1.getD (i - 1) '?' :: a1) ('-' :: a2) ((i, j) :: path)
        | Dir.left =>
            swTracebackGo M s1 s2 fuel i (j - 1)
              ('-' :: a1) (s2.getD (j - 1) '?' :: a2) ((i, j) :: path)
        | Dir.none => ⟨a1, a2, (i, j) :: path⟩

/-- `localAlignment`: fill, find the maximum cell, traceback from it;
the returned score is `maxCell.score`. -/
def localAlignment (s1 s2 : List Char) (p : ScoringParams) : AlignmentResult :=
  let M := swFillMatrix s1 s2 p
  let mc := swMaxCell M s1.length s2.length
  let tb := swTracebackGo M s1 s2 (mc.1 + mc.2.1) mc.1 mc.2.1 [] [] []
  ⟨M, tb.a1, tb.a2, mc.2.2, tb.path⟩

/-! ## Dovetail alignment (`dovetailAlignment.ts`) -/

/-- Dovetail fill body: identical candidate / max / direction chain to
the global fill (the source initialises `direction = DIAGONAL` and then
runs the same `if / else if / else` chain, which always assigns). -/
def dtBody (s1 s2 : List Char) (p : ScoringParams) (i j : ℕ) (dl up l : Cell) : Cell :=
  computeCell p (s1.getD (i - 1) '?') (s2.getD (j - 1) '?') dl.score up.score l.score

/-- Dovetail row 0: score 0 everywhere, direction `LEFT` except at the
origin. -/
def dtTop (j : ℕ) : Cell := ⟨0, if j = 0 then Dir.none else Dir.left⟩

/-- Dovetail column 0 (rows `i ≥ 1`): score 0, direction `UP`. -/
def dtBound (i : ℕ) : Cell := ⟨0, if i = 0 then Dir.none else Dir.up⟩

/-- The dovetail `initializeMatrix` + `fillMatrix`. -/
def dtFillMatrix (s1 s2 : List Char) (p : ScoringParams) : List (List Cell) :=
  dpFillMatrix cellDflt (dtBody s1 s2 p)
    ((List.range (s2.length + 1)).map dtTop) dtBound s1.length s2.length

/-- Cell `(i, j)` of the dovetail matrix, recursively. -/
def dtCellRec (s1 s2 : List Char) (p : ScoringParams) (i j : ℕ) : Cell :=
  dpCellRec (dtBody s1 s2 p) dtTop dtBound i j

theorem cellAt_dtFillMatrix (s1 s2 : List Char) (p : ScoringParams) (i j : ℕ)
    (hi : i ≤ s1.length) (hj : j ≤ s2.length) :
    cellAt (dtFillMatrix s1 s2 p) i j = dtCellRec s1 s2 p i j := by
  refine dpFillMatrix_spec cellDflt (dtBody s1 s2 p) dtTop dtBound
    s1.length s2.length _ ?_ ?_ i j hi hj
  · intro j hj
    rw [getD_map_range _ _ _ _ (by omega)]
  · intro i
    rw [dpCellRec]

/-- `findBestEndCell`: start from the bottom-right corner, scan the last
row then the last column, replacing the best on a strict `>`. -/
def dtBestEnd (M : List (List Cell)) (m n : ℕ) : ℕ × ℕ × ℤ :=
  let b0 : ℕ × ℕ × ℤ := (m, n, (cellAt M m n).score)
  let b1 := (List.range (n + 1)).foldl (fun b j =>
    if (cellAt M m j).score > b.2.2 then (m, j, (cellAt M m j).score) else b) b0
  (List.range (m + 1)).foldl (fun b i =>
    if (cellAt M i n).score > b.2.2 then (i, n, (cellAt M i n).score) else b) b1

/-- Synthetic trailing gap run for `seq1`
(`for (k = rows-1; k > i; k--)`): prepends `cnt` characters of `seq1`
(downwards from index `k-1`) and `cnt` gaps; no path entries, no score
change. -/
def dtTrailGap1 (s1 : List Char) : ℕ → ℕ → List Char → List Char → List Char × List Char
  | _, 0, a1, a2 => (a1, a2)
  | k, cnt + 1, a1, a2 => dtTrailGap1 s1 (k - 1) cnt (s1.getD (k - 1) '?' :: a1) ('-' :: a2)

/-- Synthetic trailing gap run for `seq2`. -/
def dtTrailGap2 (s2 : List Char) : ℕ → ℕ → List Char → List Char → List Char × List Char
  | _, 0, a1, a2 => (a1, a2)
  | k, cnt + 1, a1, a2 => dtTrailGap2 s2 (k - 1) cnt ('-' :: a1) (s2.getD (k - 1) '?' :: a2)

/-- The dovetail inner loop `while (i > 0 && j > 0)`: unlike the global
traceback there is no `NONE` branch - the final `else` treats any
non-diagonal, non-up direction as `LEFT`.  Returns the stopping `(i, j)`
with the accumulators. -/
def dtTracebackGo (M : List (List Cell)) (s1 s2 : List Char) :
    ℕ → ℕ → ℕ → List Char → List Char → List (ℕ × ℕ) →
      ℕ × ℕ × List Char × List Char × List (ℕ × ℕ)
  | 0, i, j, a1, a2, path => (i, j, a1, a2, path)
  | fuel + 1, i, j, a1, a2, path =>
      if i = 0 ∨ j = 0 then (i, j, a1, a2, path)
      else
        match (cellAt M i j).direction with
        | Dir.diagonal =>
            dtTracebackGo M s1 s2 fuel (i - 1) (j - 1)
              (s1.getD (i - 1) '?' :: a1) (s2.getD (j - 1) '?' :: a2) ((i, j) :: path)
        | Dir.up =>
            dtTracebackGo M s1 s2 fuel (i - 1) j
              (s1.getD (i - 1) '?' :: a1) ('-' :: a2) ((i, j) :: path)
        | _ =>
            dtTracebackGo M s1 s2 fuel i (j - 1)
              ('-' :: a1) (s2.getD (j - 1) '?' :: a2) ((i, j) :: path)

/-- Leading gap run `while (i > 0)`: prepend `seq1[i-1]` and a gap,
push `(i, 0)`. -/
def dtLeadGap1 (s1 : List Char) :
    ℕ → List Char → List Char → List (ℕ × ℕ) → List Char × List Char × List (ℕ × ℕ)
  | 0, a1, a2, path => (a1, a2, path)
  | i + 1, a1, a2, path =>
      dtLeadGap1 s1 i (s1.getD i '?' :: a1) ('-' :: a2) ((i + 1, 0) :: path)

/-- Leading gap run `while (j > 0)`. -/
def dtLeadGap2 (s2 : List Char) :
    ℕ → List Char → List Char → List (ℕ × ℕ) → List Char × List Char × List (ℕ × ℕ)
  | 0, a1, a2, path => (a1, a2, path)
  | j + 1, a1, a2, path =>
      dtLeadGap2 s2 j ('-' :: a1) (s2.getD j '?' :: a2) ((0, j + 1) :: path)

/-- The dovetail `traceback`, started at `startCell`: synthetic trailing
runs (no path entries), the inner backtrace, the two leading runs, the
final `(0,0)` push. -/
def dtTraceback (M : List (List Cell)) (s1 s2 : List Char) (start : ℕ × ℕ) : TBOut :=
  let m := s1.length
  let n := s2.length
  let t1 := dtTrailGap1 s1 m (m - start.1) [] []
  let t2 := dtTrailGap2 s2 n (n - start.2) t1.1 t1.2
  let inner := dtTracebackGo M s1 s2 (start.1 + start.2) start.1 start.2 t2.1 t2.2 []
  let l1 := dtLeadGap1 s1 inner.1 inner.2.2.1 inner.2.2.2.1 inner.2.2.2.2
  let l2 := dtLeadGap2 s2 inner.2.1 l1.1 l1.2.1 l1.2.2
  ⟨l2.1, l2.2.1, (0, 0) :: l2.2.2⟩

/-- `dovetailAlignment`: fill, pick the best last-row / last-column
cell, traceback from it; the returned score is `bestEndCell.score`. -/
def dovetailAlignment (s1 s2 : List Char) (p : ScoringParams) : AlignmentResult :=
  let M := dtFillMatrix s1 s2 p
  let be := dtBestEnd M s1.length s2.length
  let tb := dtTraceback M s1 s2 (be.1, be.2.1)
  ⟨M, tb.a1, tb.a2, be.2.2, tb.path⟩

/-! ## C3: direction / candidate consistency and tie priority -/

/-- Direction consistency with priority `Diagonal > Up > Left` over the
three move candidates `d`, `u`, `l`: the score is their maximum, the
recorded direction's candidate equals the score, and a lower-priority
direction is recorded only when every higher-priority candidate misses
the maximum. -/
def directionConsistent {α : Type} [LinearOrder α] (score : α) (dir : Dir)
    (d u l : α) : Prop :=
  score = max d (max u l) ∧
  (dir = Dir.diagonal → score = d) ∧
  (dir = Dir.up → score = u ∧ score ≠ d) ∧
  (dir = Dir.left → score = l ∧ score ≠ d ∧ score ≠ u) ∧
  dir ≠ Dir.none

/-- Local-alignment direction consistency: the reset-to-zero candidate
has the HIGHEST priority (whenever the floored maximum is 0 the
direction is `NONE`), followed by `Diagonal > Up > Left`. -/
def directionConsistentLocal (score : ℤ) (dir : Dir) (d u l : ℤ) : Prop :=
  score = max 0 (max d (max u l)) ∧
  (dir = Dir.none → score = 0) ∧
  (dir = Dir.diagonal → score = d ∧ score ≠ 0) ∧
  (dir = Dir.up → score = u ∧ score ≠ 0 ∧ score ≠ d) ∧
  (dir = Dir.left → score = l ∧ score ≠ 0 ∧ score ≠ d ∧ score ≠ u)

theorem directionConsistent_of_chain {α : Type} [LinearOrder α] (D U L : α) :
    directionConsistent (max D (max U L))
      (if max D (max U L) = D then Dir.diagonal
       else if max D (max U L) = U then Dir.up else Dir.left) D U L := by
  by_cases h1 : max D (max U L) = D
  · rw [if_pos h1]
    exact ⟨rfl, fun _ => h1, by simp, by simp, by simp⟩
  · rw [if_neg h1]
    by_cases h2 : max D (max U L) = U
    · rw [if_pos h2]
      exact ⟨rfl, by simp, fun _ => ⟨h2, h1⟩, by simp, by simp⟩
    · rw [if_neg h2]
      have hL : max D (max U L) = L := by
        rcases max_choice D (max U L) with h | h
        · exact absurd h h1
        · rcases max_choice U L with h' | h'
          · exact absurd (h.trans h') h2
          · rw [h, h']
      exact ⟨rfl, by simp, by simp, fun _ => ⟨hL, h1, h2⟩, by simp⟩

theorem directionConsistentLocal_of_chain (D U L : ℤ) :
    directionConsistentLocal (max 0 (max D (max U L)))
      (if max 0 (max D (max U L)) = 0 then Dir.none
       else if max 0 (max D (max U L)) = D then Dir.diagonal
       else if max 0 (max D (max U L)) = U then Dir.up else Dir.left) D U L := by
  refine ⟨rfl, ?_, ?_, ?_, ?_⟩ <;> split_ifs with h1 h2 h3 <;> simp_all <;> omega

/-- C3 property at cell `(i+1, j+1)` of the global matrix. -/
def c3GlobalProp (s1 s2 : List Char) (p : ScoringParams) (i j : ℕ) : Prop :=
  directionConsistent
    (cellAt (globalAlignment s1 s2 p).matrix (i + 1) (j + 1)).score
    (cellAt (globalAlignment s1 s2 p).matrix (i + 1) (j + 1)).direction
    ((cellAt (globalAlignment s1 s2 p).matrix i j).score +
      getMatchScore (s1.getD i '?') (s2.getD j '?') p)
    ((cellAt (globalAlignment s1 s2 p).matrix i (j + 1)).score + p.gapPenalty)
    ((cellAt (globalAlignment s1 s2 p).matrix (i + 1) j).score + p.gapPenalty)

/-- C3 property at cell `(i+1, j+1)` of the dovetail matrix. -/
def c3DovetailProp (s1 s2 : List Char) (p : ScoringParams) (i j : ℕ) : Prop :=
  directionConsistent
    (cellAt (dovetailAlignment s1 s2 p).matrix (i + 1) (j + 1)).score
    (cellAt (dovetailAlignment s1 s2 p).matrix (i + 1) (j + 1)).direction
    ((cellAt (dovetailAlignment s1 s2 p).matrix i j).score +
      getMatchScore (s1.getD i '?') (s2.getD j '?') p)
    ((cellAt (dovetailAlignment s1 s2 p).matrix i (j + 1)).score + p.gapPenalty)
    ((cellAt (dovetailAlignment s1 s2 p).matrix (i + 1) j).score + p.gapPenalty)

/-- C3 property (amended form) at cell `(i+1, j+1)` of the local
matrix. -/
def c3LocalProp (s1 s2 : List Char) (p : ScoringParams) (i j : ℕ) : Prop :=
  directionConsistentLocal
    (cellAt (localAlignment s1 s2 p).matrix (i + 1) (j + 1)).score
    (cellAt (localAlignment s1 s2 p).matrix (i + 1) (j + 1)).direction
    ((cellAt (localAlignment s1 s2 p).matrix i j).score +
      getMatchScore (s1.getD i '?') (s2.getD j '?') p)
    ((cellAt (localAlignment s1 s2 p).matrix i (j + 1)).score + p.gapPenalty)
    ((cellAt (localAlignment s1 s2 p).matrix (i + 1) j).score + p.gapPenalty)

/-- C3 property at an in-band cell `(i+1, j+1)` of the banded matrix:
a candidate whose source cell is out of band is `-Infinity`. -/
def c3BandedProp (s1 s2 : List Char) (pb : BandedParams) (i j : ℕ) : Prop :=
  directionConsistent
    (bCellAt (bandedAlignment s1 s2 pb).matrix (i + 1) (j + 1)).score
    (bCellAt (bandedAlignment s1 s2 pb).matrix (i + 1) (j + 1)).direction
    (if isInBand i j (max pb.bandwidth (((s1.length : ℤ) - (s2.length : ℤ)).natAbs)) then
        (bCellAt (bandedAlignment s1 s2 pb).matrix i j).score +
          ((if s1.getD i '?' = s2.getD j '?' then pb.matchScore else pb.mismatch : ℤ) : WithBot ℤ)
      else ⊥)
    (if isInBand i (j + 1) (max pb.bandwidth (((s1.length : ℤ) - (s2.length : ℤ)).natAbs)) then
        (bCellAt (bandedAlignment s1 s2 pb).matrix i (j + 1)).score + (pb.gapPenalty : WithBot ℤ)
      else ⊥)
    (if isInBand (i + 1) j (max pb.bandwidth (((s1.length : ℤ) - (s2.length : ℤ)).natAbs)) then
        (bCellAt (bandedAlignment s1 s2 pb).matrix (i + 1) j).score + (pb.gapPenalty : WithBot ℤ)
      else ⊥)

/-- C3 counterexample: the claimed tie priority
`Diagonal > Up > Left > reset-to-zero` fails in local alignment.  On
`seq1 = "A"`, `seq2 = "B"` with `match = 1`, `mismatch = 0`,
`gapPenalty = -1`, cell `(1,1)` has diagonal candidate `0 + 0 = 0`
tying the floored maximum `0`, yet the recorded direction is `NONE`
(the reset), not `DIAGONAL`. -/
theorem c3_counterexample :
    (cellAt (localAlignment ['A'] ['B'] ⟨1, 0, -1⟩).matrix 1 1).direction = Dir.none ∧
      (cellAt (localAlignment ['A'] ['B'] ⟨1, 0, -1⟩).matrix 1 1).score =
        (cellAt (localAlignment ['A'] ['B'] ⟨1, 0, -1⟩).matrix 0 0).score +
          getMatchScore 'A' 'B' ⟨1, 0, -1⟩ ∧
      Dir.none ≠ Dir.diagonal := by
  refine ⟨by decide, by decide, by decide⟩

theorem nwCellRec_succ (s1 s2 : List Char) (p : ScoringParams) (i j : ℕ) :
    nwCellRec s1 s2 p (i + 1) (j + 1) =
      computeCell p (s1.getD i '?') (s2.getD j '?') (nwCellRec s1 s2 p i j).score
        (nwCellRec s1 s2 p i (j + 1)).score (nwCellRec s1 s2 p (i + 1) j).score := by
  rw [nwCellRec]

theorem c3_global_aux (s1 s2 : List Char) (p : ScoringParams) (i j : ℕ)
    (hi : i + 1 ≤ s1.length) (hj : j + 1 ≤ s2.length) : c3GlobalProp s1 s2 p i j := by
  unfold c3GlobalProp
  have hM : (globalAlignment s1 s2 p).matrix = nwFillMatrix s1 s2 p := rfl
  rw [hM, cellAt_nwFillMatrix _ _ _ _ _ hi hj,
    cellAt_nwFillMatrix _ _ _ _ _ (by omega) (by omega),
    cellAt_nwFillMatrix _ _ _ _ _ (by omega) hj,
    cellAt_nwFillMatrix _ _ _ _ _ hi (by omega), nwCellRec_succ]
  exact directionConsistent_of_chain _ _ _

theorem dtCellRec_succ (s1 s2 : List Char) (p : ScoringParams) (i j : ℕ) :
    dtCellRec s1 s2 p (i + 1) (j + 1) =
      computeCell p (s1.getD i '?') (s2.getD j '?') (dtCellRec s1 s2 p i j).score
        (dtCellRec s1 s2 p i (j + 1)).score (dtCellRec s1 s2 p (i + 1) j).score := by
  rw [dtCellRec, dpCellRec]
  simp only [dtBody, Nat.add_sub_cancel]
  rfl

theorem c3_dovetail_aux (s1 s2 : List Char) (p : ScoringParams) (i j : ℕ)
    (hi : i + 1 ≤ s1.length) (hj : j + 1 ≤ s2.length) : c3DovetailProp s1 s2 p i j := by
  unfold c3DovetailProp
  have hM : (dovetailAlignment s1 s2 p).matrix = dtFillMatrix s1 s2 p := rfl
  rw [hM, cellAt_dtFillMatrix _ _ _ _ _ hi hj,
    cellAt_dtFillMatrix _ _ _ _ _ (by omega) (by omega),
    cellAt_dtFillMatrix _ _ _ _ _ (by omega) hj,
    cellAt_dtFillMatrix _ _ _ _ _ hi (by omega), dtCellRec_succ]
  exact directionConsistent_of_chain _ _ _

theorem swCellRec_succ (s1 s2 : List Char) (p : ScoringParams) (i j : ℕ) :
    swCellRec s1 s2 p (i + 1) (j + 1) =
      swComputeCell p (s1.getD i '?') (s2.getD j '?') (swCellRec s1 s2 p i j).score
        (swCellRec s1 s2 p i (j + 1)).score (swCellRec s1 s2 p (i + 1) j).score := by
  rw [swCellRec, dpCellRec]
  simp only [swBody, Nat.add_sub_cancel]
  rfl

theorem c3_local_aux (s1 s2 : List Char) (p : ScoringParams) (i j : ℕ)
    (hi : i + 1 ≤ s1.length) (hj : j + 1 ≤ s2.length) : c3LocalProp s1 s2 p i j := by
  unfold c3LocalProp
  have hM : (localAlignment s1 s2 p).matrix = swFillMatrix s1 s2 p := rfl
  rw [hM, cellAt_swFillMatrix _ _ _ _ _ hi hj,
    cellAt_swFillMatrix _ _ _ _ _ (by omega) (by omega),
    cellAt_swFillMatrix _ _ _ _ _ (by omega) hj,
    cellAt_swFillMatrix _ _ _ _ _ hi (by omega), swCellRec_succ]
  exact directionConsistentLocal_of_chain _ _ _

theorem bdCellRec_succ (s1 s2 : List Char) (p : BandedParams) (i j : ℕ) :
    bdCellRec s1 s2 p (i + 1) (j + 1) =
      bdBody s1 s2 p (i + 1) (j + 1) (bdCellRec s1 s2 p i j)
        (bdCellRec s1 s2 p i (j + 1)) (bdCellRec s1 s2 p (i + 1) j) := by
  rw [bdCellRec, dpCellRec]
  rfl

theorem c3_banded_aux (s1 s2 : List Char) (pb : BandedParams) (i j : ℕ)
    (hi : i + 1 ≤ s1.length) (hj : j + 1 ≤ s2.length)
    (hin : isInBand (i + 1) (j + 1)
      (max pb.bandwidth (((s1.length : ℤ) - (s2.length : ℤ)).natAbs)) = true) :
    c3BandedProp s1 s2 pb i j := by
  unfold c3BandedProp
  set pe : BandedParams := ⟨pb.matchScore, pb.mismatch, pb.gapPenalty,
    max pb.bandwidth (((s1.length : ℤ) - (s2.length : ℤ)).natAbs)⟩ with hpe
  have hM : (bandedAlignment s1 s2 pb).matrix = bdFillMatrix s1 s2 pe := rfl
  rw [hM, bCellAt_bdFillMatrix _ _ _ _ _ hi hj,
    bCellAt_bdFillMatrix _ _ _ _ _ (by omega) (by omega),
    bCellAt_bdFillMatrix _ _ _ _ _ (by omega) hj,
    bCellAt_bdFillMatrix _ _ _ _ _ hi (by omega), bdCellRec_succ]
  have hb : bdBody s1 s2 pe (i + 1) (j + 1) (bdCellRec s1 s2 pe i j)
      (bdCellRec s1 s2 pe i (j + 1)) (bdCellRec s1 s2 pe (i + 1) j) =
      bdComputeCell pe (s1.getD i '?') (s2.getD j '?')
        (isInBand i j pe.bandwidth) (isInBand i (j + 1) pe.bandwidth)
        (isInBand (i + 1) j pe.bandwidth)
        (bdCellRec s1 s2 pe i j).score (bdCellRec s1 s2 pe i (j + 1)).score
        (bdCellRec s1 s2 pe (i + 1) j).score := by
    rw [bdBody, if_pos hin]
    simp
  rw [hb]
  exact directionConsistent_of_chain _ _ _

/-- C3 amended: in every variant, every filled cell's direction
identifies a candidate whose value equals the cell's score, with tie
priority `Diagonal > Up > Left` among the three move candidates - but
in local alignment the reset-to-zero candidate has the HIGHEST
priority (whenever the floored maximum is 0 the direction is `NONE`),
not the lowest as the claim states. -/
theorem c3_amended_direction_priority (s1 s2 : List Char) (p : ScoringParams)
    (pb : BandedParams) (i j : ℕ)
    (hi : i + 1 ≤ s1.length) (hj : j + 1 ≤ s2.length)
    (hin : isInBand (i + 1) (j + 1)
      (max pb.bandwidth (((s1.length : ℤ) - (s2.length : ℤ)).natAbs)) = true) :
    c3GlobalProp s1 s2 p i j ∧ c3DovetailProp s1 s2 p i j ∧
      c3LocalProp s1 s2 p i j ∧ c3BandedProp s1 s2 pb i j :=
  ⟨c3_global_aux s1 s2 p i j hi hj, c3_dovetail_aux s1 s2 p i j hi hj,
    c3_local_aux s1 s2 p i j hi hj, c3_banded_aux s1 s2 pb i j hi hj hin⟩

/-- Witness for the amended C3 at a concrete input. -/
theorem c3_witness :
    0 + 1 ≤ (['A', 'G'] : List Char).length ∧
      0 + 1 ≤ (['A', 'C'] : List Char).length ∧
      isInBand (0 + 1) (0 + 1)
        (max 2 ((((['A', 'G'] : List Char).length : ℤ) -
          ((['A', 'C'] : List Char).length : ℤ)).natAbs)) = true ∧
      (c3GlobalProp ['A', 'G'] ['A', 'C'] ⟨1, -1, -2⟩ 0 0 ∧
        c3DovetailProp ['A', 'G'] ['A', 'C'] ⟨1, -1, -2⟩ 0 0 ∧
        c3LocalProp ['A', 'G'] ['A', 'C'] ⟨1, -1, -2⟩ 0 0 ∧
        c3BandedProp ['A', 'G'] ['A', 'C'] ⟨1, -1, -2, 2⟩ 0 0) :=
  ⟨by decide, by decide, by decide,
    c3_amended_direction_priority ['A', 'G'] ['A', 'C'] ⟨1, -1, -2⟩ ⟨1, -1, -2, 2⟩ 0 0
      (by decide) (by decide) (by decide)⟩

/-! ## C6: dovetail charges no end-gap penalty; global never beats it -/

/-- The scores of the last row and the last column of a matrix. -/
def dtLastRowColScores (M : List (List Cell)) (m n : ℕ) : List ℤ :=
  ((List.range (n + 1)).map fun (j : ℕ) => (cellAt M m j).score) ++
    ((List.range (m + 1)).map fun (i : ℕ) => (cellAt M i n).score)

theorem bestFold_spec (v : ℕ → ℤ) (mk : ℕ → ℕ × ℕ × ℤ)
    (hmk : ∀ k, (mk k).2.2 = v k) :
    ∀ (l : List ℕ) (b0 : ℕ × ℕ × ℤ),
      b0.2.2 ≤ (l.foldl (fun b k => if v k > b.2.2 then mk k else b) b0).2.2 ∧
      (∀ k ∈ l, v k ≤ (l.foldl (fun b k => if v k > b.2.2 then mk k else b) b0).2.2) ∧
      ((l.foldl (fun b k => if v k > b.2.2 then mk k else b) b0) = b0 ∨
        ∃ k ∈ l, (l.foldl (fun b k => if v k > b.2.2 then mk k else b) b0) = mk k) := by
  intro l
  induction l with
  | nil => intro b0; exact ⟨le_rfl, by simp, Or.inl rfl⟩
  | cons k l ih =>
    intro b0
    simp only [List.foldl_cons]
    by_cases h : v k > b0.2.2
    · rw [if_pos h]
      obtain ⟨ha, hb, hc⟩ := ih (mk k)
      refine ⟨le_trans (le_of_lt h) (by rw [← hmk k]; exact ha), ?_, ?_⟩
      · intro k' hk'
        rcases List.mem_cons.mp hk' with hk' | hk'
        · rw [hk', ← hmk k]; exact ha
        · exact hb k' hk'
      · rcases hc with hc | ⟨k', hk', hc⟩
        · exact Or.inr ⟨k, List.mem_cons_self k l, hc⟩
        · exact Or.inr ⟨k', List.mem_cons_of_mem k hk', hc⟩
    · rw [if_neg h]
      obtain ⟨ha, hb, hc⟩ := ih b0
      refine ⟨ha, ?_, ?_⟩
      · intro k' hk'
        rcases List.mem_cons.mp hk' with hk' | hk'
        · rw [hk']; exact le_trans (le_of_not_lt h) ha
        · exact hb k' hk'
      · rcases hc with hc | ⟨k', hk', hc⟩
        · exact Or.inl hc
        · exact Or.inr ⟨k', List.mem_cons_of_mem k hk', hc⟩

theorem dtBestEnd_spec (M : List (List Cell)) (m n : ℕ) :
    (cellAt M m n).score ≤ (dtBestEnd M m n).2.2 ∧
      (dtBestEnd M m n).2.2 ∈ dtLastRowColScores M m n ∧
      ∀ x ∈ dtLastRowColScores M m n, x ≤ (dtBestEnd M m n).2.2 := by
  obtain ⟨ha1, hb1, hc1⟩ := bestFold_spec (fun j => (cellAt M m j).score)
    (fun j => (m, j, (cellAt M m j).score)) (fun _ => rfl) (List.range (n + 1))
    (m, n, (cellAt M m n).score)
  obtain ⟨ha2, hb2, hc2⟩ := bestFold_spec (fun i => (cellAt M i n).score)
    (fun i => (i, n, (cellAt M i n).score)) (fun _ => rfl) (List.range (m + 1))
    ((List.range (n + 1)).foldl
      (fun b j => if (cellAt M m j).score > b.2.2 then (m, j, (cellAt M m j).score) else b)
      (m, n, (cellAt M m n).score))
  have hbe : dtBestEnd M m n = (List.range (m + 1)).foldl
      (fun b i => if (cellAt M i n).score > b.2.2 then (i, n, (cellAt M i n).score) else b)
      ((List.range (n + 1)).foldl
        (fun b j => if (cellAt M m j).score > b.2.2 then (m, j, (cellAt M m j).score) else b)
        (m, n, (cellAt M m n).score)) := rfl
  rw [hbe]
  refine ⟨le_trans ha1 ha2, ?_, ?_⟩
  · rcases hc2 with hc2 | ⟨i, hi, hc2⟩
    · rw [hc2]
      rcases hc1 with hc1 | ⟨j, hj, hc1⟩
      · rw [hc1]
        refine List.mem_append_left _ ?_
        exact List.mem_map.mpr ⟨n, by simp, rfl⟩
      · rw [hc1]
        refine List.mem_append_left _ ?_
        exact List.mem_map.mpr ⟨j, hj, rfl⟩
    · rw [hc2]
      refine List.mem_append_right _ ?_
      exact List.mem_map.mpr ⟨i, hi, rfl⟩
  · intro x hx
    rcases List.mem_append.mp hx with hx | hx
    · obtain ⟨j, hj, hx⟩ := List.mem_map.mp hx
      rw [← hx]
      exact le_trans (hb1 j hj) ha2
    · obtain ⟨i, hi, hx⟩ := List.mem_map.mp hx
      rw [← hx]
      exact hb2 i hi

theorem computeCell_score_mono (p : ScoringParams) (c1 c2 : Char)
    {a b c a' b' c' : ℤ} (ha : a ≤ a') (hb : b ≤ b') (hc : c ≤ c') :
    (computeCell p c1 c2 a b c).score ≤ (computeCell p c1 c2 a' b' c').score := by
  rw [computeCell_score, computeCell_score]
  exact max_le_max (by omega) (max_le_max (by omega) (by omega))

theorem nwCellRec_le_dtCellRec (s1 s2 : List Char) (p : ScoringParams)
    (hgap : p.gapPenalty ≤ 0) :
    ∀ N i j, i + j ≤ N →
      (nwCellRec s1 s2 p i j).score ≤ (dtCellRec s1 s2 p i j).score := by
  intro N
  induction N with
  | zero =>
    intro i j h
    have hi : i = 0 := by omega
    have hj : j = 0 := by omega
    subst hi; subst hj
    simp [nwCellRec, dtCellRec, dpCellRec, dtTop]
  | succ N ih =>
    intro i j h
    match i, j with
    | 0, j =>
      have : (dtCellRec s1 s2 p 0 j).score = 0 := by simp [dtCellRec, dpCellRec, dtTop]
      rw [this]
      simp only [nwCellRec]
      have : (j : ℤ) ≥ 0 := by positivity
      nlinarith
    | i + 1, 0 =>
      have : (dtCellRec s1 s2 p (i + 1) 0).score = 0 := by
        simp [dtCellRec, dpCellRec, dtBound]
      rw [this]
      simp only [nwCellRec]
      nlinarith [Int.ofNat_nonneg i]
    | i + 1, j + 1 =>
      rw [nwCellRec_succ, dtCellRec_succ]
      exact computeCell_score_mono p _ _ (ih i j (by omega)) (ih i (j + 1) (by omega))
        (ih (i + 1) j (by omega))

/-- C6 amended: dovetail's returned score is exactly the best
last-row / last-column matrix score (the synthetic leading/trailing gap
runs never change it), and with a NEGATIVE gap penalty the global
alignment score never exceeds the dovetail score. -/
theorem c6_dovetail_vs_global (s1 s2 : List Char) (p : ScoringParams)
    (h1 : s1 ≠ []) (h2 : s2 ≠ []) :
    ((dovetailAlignment s1 s2 p).score ∈
        dtLastRowColScores (dtFillMatrix s1 s2 p) s1.length s2.length ∧
      ∀ x ∈ dtLastRowColScores (dtFillMatrix s1 s2 p) s1.length s2.length,
        x ≤ (dovetailAlignment s1 s2 p).score) ∧
    (p.gapPenalty < 0 →
      (globalAlignment s1 s2 p).score ≤ (dovetailAlignment s1 s2 p).score) := by
  obtain ⟨hc, hmem, hub⟩ := dtBestEnd_spec (dtFillMatrix s1 s2 p) s1.length s2.length
  have hsc : (dovetailAlignment s1 s2 p).score =
      (dtBestEnd (dtFillMatrix s1 s2 p) s1.length s2.length).2.2 := rfl
  refine ⟨⟨by rw [hsc]; exact hmem, by rw [hsc]; exact hub⟩, ?_⟩
  intro hgap
  have hg : (globalAlignment s1 s2 p).score =
      (nwCellRec s1 s2 p s1.length s2.length).score := by
    have : (globalAlignment s1 s2 p).score =
        (cellAt (nwFillMatrix s1 s2 p) s1.length s2.length).score := rfl
    rw [this, cellAt_nwFillMatrix s1 s2 p _ _ le_rfl le_rfl]
  have hd : (cellAt (dtFillMatrix s1 s2 p) s1.length s2.length).score =
      (dtCellRec s1 s2 p s1.length s2.length).score := by
    rw [cellAt_dtFillMatrix s1 s2 p _ _ le_rfl le_rfl]
  rw [hsc, hg]
  refine le_trans ?_ (le_trans (le_of_eq hd.symm) hc)
  exact nwCellRec_le_dtCellRec s1 s2 p (le_of_lt hgap) (s1.length + s2.length) _ _ le_rfl

/-- C6 counterexample: with the nonzero (positive) gap penalty `+2`,
global alignment scores strictly higher than dovetail on
`seq1 = "A"`, `seq2 = "B"` (`match = 1`, `mismatch = -5`). -/
theorem c6_counterexample :
    (⟨1, -5, 2⟩ : ScoringParams).gapPenalty ≠ 0 ∧
      (dovetailAlignment ['A'] ['B'] ⟨1, -5, 2⟩).score <
        (globalAlignment ['A'] ['B'] ⟨1, -5, 2⟩).score := by
  refine ⟨by decide, by decide⟩

/-- Witness for the amended C6 at a concrete input. -/
theorem c6_witness :
    (['A', 'C'] : List Char) ≠ [] ∧ (['C'] : List Char) ≠ [] ∧
      (((dovetailAlignment ['A', 'C'] ['C'] ⟨1, -1, -2⟩).score ∈
          dtLastRowColScores (dtFillMatrix ['A', 'C'] ['C'] ⟨1, -1, -2⟩) 2 1 ∧
        ∀ x ∈ dtLastRowColScores (dtFillMatrix ['A', 'C'] ['C'] ⟨1, -1, -2⟩) 2 1,
          x ≤ (dovetailAlignment ['A', 'C'] ['C'] ⟨1, -1, -2⟩).score) ∧
      ((⟨1, -1, -2⟩ : ScoringParams).gapPenalty < 0 →
        (globalAlignment ['A', 'C'] ['C'] ⟨1, -1, -2⟩).score ≤
          (dovetailAlignment ['A', 'C'] ['C'] ⟨1, -1, -2⟩).score)) :=
  ⟨by decide, by decide,
    c6_dovetail_vs_global ['A', 'C'] ['C'] ⟨1, -1, -2⟩ (by decide) (by decide)⟩

/-! ## C10: every traceback keeps the two aligned strings equally long -/

theorem tracebackGo_lengths (dirAt : ℕ → ℕ → Dir) (s1 s2 : List Char) :
    ∀ (fuel i j : ℕ) (a1 a2 : List Char) (path : List (ℕ × ℕ)),
      a1.length = a2.length →
      (tracebackGo dirAt s1 s2 fuel i j a1 a2 path).a1.length =
        (tracebackGo dirAt s1 s2 fuel i j a1 a2 path).a2.length := by
  intro fuel
  induction fuel with
  | zero => intro i j a1 a2 path h; exact h
  | succ fuel ih =>
    intro i j a1 a2 path h
    rw [tracebackGo]
    by_cases h0 : i = 0 ∧ j = 0
    · rw [if_pos h0]; exact h
    · rw [if_neg h0]
      cases hdir : dirAt i j with
      | diagonal => exact ih _ _ _ _ _ (by simp [h])
      | up => exact ih _ _ _ _ _ (by simp [h])
      | left => exact ih _ _ _ _ _ (by simp [h])
      | none => exact h

theorem swTracebackGo_lengths (M : List (List Cell)) (s1 s2 : List Char) :
    ∀ (fuel i j : ℕ) (a1 a2 : List Char) (path : List (ℕ × ℕ)),
      a1.length = a2.length →
      (swTracebackGo M s1 s2 fuel i j a1 a2 path).a1.length =
        (swTracebackGo M s1 s2 fuel i j a1 a2 path).a2.length := by
  intro fuel
  induction fuel with
  | zero => intro i j a1 a2 path h; exact h
  | succ fuel ih =>
    intro i j a1 a2 path h
    rw [swTracebackGo]
    by_cases h0 : i = 0 ∨ j = 0 ∨ ¬ 0 < (cellAt M i j).score
    · rw [if_pos h0]; exact h
    · rw [if_neg h0]
      cases hdir : (cellAt M i j).direction with
      | diagonal => exact ih _ _ _ _ _ (by simp [h])
      | up => exact ih _ _ _ _ _ (by simp [h])
      | left => exact ih _ _ _ _ _ (by simp [h])
      | none => exact h

theorem dtTrailGap1_lengths (s1 : List Char) :
    ∀ (cnt k : ℕ) (a1 a2 : List Char), a1.length = a2.length →
      (dtTrailGap1 s1 k cnt a1 a2).1.length = (dtTrailGap1 s1 k cnt a1 a2).2.length := by
  intro cnt
  induction cnt with
  | zero => intro k a1 a2 h; exact h
  | succ cnt ih => intro k a1 a2 h; exact ih _ _ _ (by simp [h])

theorem dtTrailGap2_lengths (s2 : List Char) :
    ∀ (cnt k : ℕ) (a1 a2 : List Char), a1.length = a2.length →
      (dtTrailGap2 s2 k cnt a1 a2).1.length = (dtTrailGap2 s2 k cnt a1 a2).2.length := by
  intro cnt
  induction cnt with
  | zero => intro k a1 a2 h; exact h
  | succ cnt ih => intro k a1 a2 h; exact ih _ _ _ (by simp [h])

theorem dtTracebackGo_lengths (M : List (List Cell)) (s1 s2 : List Char) :
    ∀ (fuel i j : ℕ) (a1 a2 : List Char) (path : List (ℕ × ℕ)),
      a1.length = a2.length →
      (dtTracebackGo M s1 s2 fuel i j a1 a2 path).2.2.1.length =
        (dtTracebackGo M s1 s2 fuel i j a1 a2 path).2.2.2.1.length := by
  intro fuel
  induction fuel with
  | zero => intro i j a1 a2 path h; exact h
  | succ fuel ih =>
    intro i j a1 a2 path h
    rw [dtTracebackGo]
    by_cases h0 : i = 0 ∨ j = 0
    · rw [if_pos h0]; exact h
    · rw [if_neg h0]
      cases hdir : (cellAt M i j).direction with
      | diagonal => exact ih _ _ _ _ _ (by simp [h])
      | up => exact ih _ _ _ _ _ (by simp [h])
      | left => exact ih _ _ _ _ _ (by simp [h])
      | none => exact ih _ _ _ _ _ (by simp [h])

theorem dtLeadGap1_lengths (s1 : List Char) :
    ∀ (i : ℕ) (a1 a2 : List Char) (path : List (ℕ × ℕ)), a1.length = a2.length →
      (dtLeadGap1 s1 i a1 a2 path).1.length = (dtLeadGap1 s1 i a1 a2 path).2.1.length := by
  intro i
  induction i with
  | zero => intro a1 a2 path h; exact h
  | succ i ih => intro a1 a2 path h; exact ih _ _ _ (by simp [h])

theorem dtLeadGap2_lengths (s2 : List Char) :
    ∀ (j : ℕ) (a1 a2 : List Char) (path : List (ℕ × ℕ)), a1.length = a2.length →
      (dtLeadGap2 s2 j a1 a2 path).1.length = (dtLeadGap2 s2 j a1 a2 path).2.1.length := by
  intro j
  induction j with
  | zero => intro a1 a2 path h; exact h
  | succ j ih => intro a1 a2 path h; exact ih _ _ _ (by simp [h])

/-- C10: each of the four alignment functions returns `alignedSeq1` and
`alignedSeq2` of equal length - every traceback step (including
dovetail's synthetic gap runs) appends exactly one character or gap to
each aligned string. -/
theorem c10_aligned_lengths_equal (s1 s2 : List Char) (pg : ScoringParams)
    (pb : BandedParams) (h1 : s1 ≠ []) (h2 : s2 ≠ []) :
    (globalAlignment s1 s2 pg).alignedSeq1.length =
        (globalAlignment s1 s2 pg).alignedSeq2.length ∧
      (localAlignment s1 s2 pg).alignedSeq1.length =
        (localAlignment s1 s2 pg).alignedSeq2.length ∧
      (dovetailAlignment s1 s2 pg).alignedSeq1.length =
        (dovetailAlignment s1 s2 pg).alignedSeq2.length ∧
      (bandedAlignment s1 s2 pb).alignedSeq1.length =
        (bandedAlignment s1 s2 pb).alignedSeq2.length := by
  refine ⟨?_, ?_, ?_, ?_⟩
  · exact tracebackGo_lengths _ s1 s2 _ _ _ [] [] [] rfl
  · exact swTracebackGo_lengths _ s1 s2 _ _ _ [] [] [] rfl
  · show (dtTraceback (dtFillMatrix s1 s2 pg) s1 s2 _).a1.length =
      (dtTraceback (dtFillMatrix s1 s2 pg) s1 s2 _).a2.length
    rw [dtTraceback]
    refine dtLeadGap2_lengths s2 _ _ _ _ ?_
    refine dtLeadGap1_lengths s1 _ _ _ _ ?_
    refine dtTracebackGo_lengths _ s1 s2 _ _ _ _ _ _ ?_
    refine dtTrailGap2_lengths s2 _ _ _ _ ?_
    exact dtTrailGap1_lengths s1 _ _ [] [] rfl
  · exact tracebackGo_lengths _ s1 s2 _ _ _ [] [] [] rfl

/-- Witness for C10 at a concrete input. -/
theorem c10_witness :
    (['A', 'C'] : List Char) ≠ [] ∧ (['G'] : List Char) ≠ [] ∧
      ((globalAlignment ['A', 'C'] ['G'] ⟨1, -1, -2⟩).alignedSeq1.length =
          (globalAlignment ['A', 'C'] ['G'] ⟨1, -1, -2⟩).alignedSeq2.length ∧
        (localAlignment ['A', 'C'] ['G'] ⟨1, -1, -2⟩).alignedSeq1.length =
          (localAlignment ['A', 'C'] ['G'] ⟨1, -1, -2⟩).alignedSeq2.length ∧
        (dovetailAlignment ['A', 'C'] ['G'] ⟨1, -1, -2⟩).alignedSeq1.length =
          (dovetailAlignment ['A', 'C'] ['G'] ⟨1, -1, -2⟩).alignedSeq2.length ∧
        (bandedAlignment ['A', 'C'] ['G'] ⟨1, -1, -2, 0⟩).alignedSeq1.length =
          (bandedAlignment ['A', 'C'] ['G'] ⟨1, -1, -2, 0⟩).alignedSeq2.length) :=
  ⟨by decide, by decide,
    c10_aligned_lengths_equal ['A', 'C'] ['G'] ⟨1, -1, -2⟩ ⟨1, -1, -2, 0⟩
      (by decide) (by decide)⟩

/-! ## Lattice protein folding: shared primitives

The three driver sources (`geneticAlgorithm.ts`, `hillClimbing.ts`,
`simulatedAnnealing.ts`) repeat these definitions verbatim; they are
embedded once.

Randomness model: `rand()` values are an explicit stream of rationals
with a cursor (`Rng`); the seeded generator is the source's hash + LCG
with `value / 0xffffffff` read as an exact rational.  Two pieces of the
source have host-defined behaviour and are abstracted into a `JsEnv`:
`[...DIRECTIONS].sort(() => rand() - 0.5)` (a sort with an inconsistent
comparator - result order and number of `rand()` calls are
engine-defined) and the float comparison `rand() < Math.exp(...)`
(transcendental).  `mathRandom` stands for the host's ambient entropy
(`Math.random`), which none of this code ever reads. -/

/-- The move alphabet `'L' | 'R' | 'F'` (the folding sources call this
type `Direction`; renamed to avoid clashing with the alignment
`Direction`). -/
inductive Mv : Type where
  | L : Mv
  | R : Mv
  | F : Mv
deriving DecidableEq, Repr

/-- `DIRECTIONS = ['L', 'F', 'R']`. -/
def DIRECTIONS : List Mv := [Mv.L, Mv.F, Mv.R]

/-- A 2-D lattice point (`Point`). -/
structure Point where
  x : ℤ
  y : ℤ
deriving DecidableEq, Repr

def origin : Point := ⟨0, 0⟩

/-- `{moves, positions, fitness}` (`Candidate`); `fitness` is a contact
count, hence `ℕ`. -/
structure Candidate where
  moves : List Mv
  positions : List Point
  fitness : ℕ
deriving DecidableEq, Repr

def dfltCand : Candidate := ⟨[], [origin], 0⟩

/-- A `rand()` stream with a cursor. -/
structure Rng where
  stream : ℕ → ℚ
  k : ℕ

/-- One `rand()` call. -/
def Rng.next (r : Rng) : ℚ × Rng := (r.stream r.k, ⟨r.stream, r.k + 1⟩)

/-- Host-defined pieces of the JavaScript runtime (see the section
comment). -/
structure JsEnv where
  sortDirs : Rng → List Mv × Rng
  ltExp : ℚ → ℚ → Bool
  mathRandom : ℕ → ℚ

/-- The hash loop of `seededRandom`:
`value = (value * 31 + seed.charCodeAt(i)) >>> 0` (exact: all
intermediate products fit in 53 bits; the protein alphabet is ASCII, so
`charCodeAt` is `Char.toNat`). -/
def seedHash (seed : List Char) : ℕ :=
  seed.foldl (fun v c => (v * 31 + c.toNat) % 4294967296) 0

/-- One step of the LCG: `(value * 1664525 + 1013904223) >>> 0`. -/
def lcgNext (v : ℕ) : ℕ := (v * 1664525 + 1013904223) % 4294967296

def lcgIter : ℕ → ℕ → ℕ
  | 0, v => v
  | n + 1, v => lcgIter n (lcgNext v)

/-- The `n`-th value returned by the seeded generator:
`value / 0xffffffff` after `n + 1` LCG steps. -/
def seededStream (seed : List Char) (n : ℕ) : ℚ :=
  (lcgIter (n + 1) (seedHash seed) : ℚ) / 4294967295

/-- `seededRandom(seed)`. -/
def seededRandom (seed : List Char) : Rng := ⟨seededStream seed, 0⟩

/-- `rotate`. -/
def rotate (orientation : ℕ) (turn : Mv) : ℕ :=
  match turn with
  | Mv.L => (orientation + 3) % 4
  | Mv.R => (orientation + 1) % 4
  | Mv.F => orientation

/-- `stepVector`. -/
def stepVector (orientation : ℕ) : Point :=
  match orientation with
  | 0 => ⟨0, 1⟩
  | 1 => ⟨1, 0⟩
  | 2 => ⟨0, -1⟩
  | _ => ⟨-1, 0⟩

/-- The `tracePath` loop.  `acc` holds the positions pushed so far in
reverse (head = current position); `visited` is the JS string-keyed
`Set` as a point list.  On a revisit the source returns the positions
accumulated so far with `valid: false` (the colliding point is not
pushed). -/
def tracePathGo (orientation : ℕ) (acc visited : List Point) :
    List Mv → List Point × Bool
  | [] => (acc.reverse, true)
  | mv :: rest =>
      let o := rotate orientation mv
      let v := stepVector o
      let cur := acc.headD origin
      let next : Point := ⟨cur.x + v.x, cur.y + v.y⟩
      if next ∈ visited then (acc.reverse, false)
      else tracePathGo o (next :: acc) (next :: visited) rest

/-- `tracePath`. -/
def tracePath (moves : List Mv) : List Point × Bool :=
  tracePathGo 0 [origin] [origin] moves

/-- `HYDROPHOBIC` residue classes. -/
def HYDROPHOBIC : List Char := ['A', 'V', 'I', 'L', 'M', 'F', 'Y', 'W']

/-- `hydrophobicMask`. -/
def hydrophobicMask (sequence : List Char) : List Bool :=
  sequence.map (fun residue => residue ∈ HYDROPHOBIC)

/-- Lattice adjacency: `|dx| + |dy| === 1`. -/
def hhAdjacent (p q : Point) : Bool :=
  (p.x - q.x).natAbs + (p.y - q.y).natAbs = 1

/-- `countHHContacts`: pairs `(i, j)`, `j ≥ i + 2`, both hydrophobic,
lattice-adjacent. -/
def countHHContacts (sequence : List Char) (positions : List Point) : ℕ :=
  let mask := hydrophobicMask sequence
  ((List.range positions.length).map (fun i =>
    if mask.getD i false then
      ((List.range positions.length).filter (fun j =>
        decide (i + 2 ≤ j) && mask.getD j false &&
          hhAdjacent (positions.getD i origin) (positions.getD j origin))).length
    else 0)).sum

/-- The inner `for (const dir of shuffled)` scan of
`generateValidMoves`: first direction whose target cell is unvisited. -/
def pickDir : List Mv → ℕ → Point → List Point → Option (Mv × ℕ × Point)
  | [], _, _, _ => none
  | d :: rest, orientation, current, visited =>
      let o := rotate orientation d
      let v := stepVector o
      let next : Point := ⟨current.x + v.x, current.y + v.y⟩
      if next ∈ visited then pickDir rest orientation current visited
      else some (d, o, next)

/-- One attempt of `generateValidMoves`: extend the walk move by move,
shuffling `DIRECTIONS` (one `sortDirs` call) before each choice;
`none` when no direction is available (`valid = false`). -/
def gvmInner (sd : Rng → List Mv × Rng) :
    ℕ → ℕ → Point → List Point → List Mv → Rng → Option (List Mv) × Rng
  | 0, _, _, _, acc, rng => (some acc.reverse, rng)
  | cnt + 1, orientation, current, visited, acc, rng =>
      let s := sd rng
      match pickDir s.1 orientation current visited with
      | some (d, o2, next) =>
          gvmInner sd cnt o2 next (next :: visited) (d :: acc) s.2
      | none => (none, s.2)

/-- The attempt loop of `generateValidMoves` (`maxAttempts = 20`);
falls back to the straight-line walk. -/
def gvmAttempts (sd : Rng → List Mv × Rng) (movesNeeded : ℕ) :
    ℕ → Rng → List Mv × Rng
  | 0, rng => (List.replicate movesNeeded Mv.F, rng)
  | att + 1, rng =>
      match gvmInner sd movesNeeded 0 origin [origin] [] rng with
      | (some mv, rng') => (mv, rng')
      | (none, rng') => gvmAttempts sd movesNeeded att rng'

/-- `generateValidMoves`. -/
def generateValidMoves (sd : Rng → List Mv × Rng) (length : ℕ) (rng : Rng) :
    List Mv × Rng :=
  if length ≤ 1 then ([], rng)
  else gvmAttempts sd (length - 1) 20 rng

/-- The attempt loop of `evaluateCandidate` (5 attempts, each failure
regenerating a random walk, then the straight-line fallback). -/
def evalAttempts (sd : Rng → List Mv × Rng) (sequence : List Char) :
    ℕ → List Mv → Rng → Candidate × Rng
  | 0, _, rng =>
      let fallbackMoves := List.replicate (sequence.length - 1) Mv.F
      let traced := tracePath fallbackMoves
      (⟨fallbackMoves, traced.1, countHHContacts sequence traced.1⟩, rng)
  | att + 1, mv, rng =>
      let traced := tracePath mv
      if traced.2 = true ∧ traced.1.length = sequence.length then
        (⟨mv, traced.1, countHHContacts sequence traced.1⟩, rng)
      else
        let g := generateValidMoves sd sequence.length rng
        evalAttempts sd sequence att g.1 g.2

/-- `evaluateCandidate`. -/
def evaluateCandidate (sd : Rng → List Mv × Rng) (sequence : List Char)
    (moves : List Mv) (rng : Rng) : Candidate × Rng :=
  evalAttempts sd sequence 5 moves rng

/-- `mutateMoves`: flip one randomly chosen move to a different
instruction (two `rand()` calls; none when `moves` is empty). -/
def mutateMoves (moves : List Mv) (rng : Rng) : List Mv × Rng :=
  if moves.length = 0 then (moves, rng)
  else
    let n1 := rng.next
    let index := (Int.toNat ⌊n1.1 * (moves.length : ℚ)⌋)
    let current := moves.getD index Mv.F
    let options := DIRECTIONS.filter (fun d => d ≠ current)
    let n2 := n1.2.next
    (moves.set index (options.getD (Int.toNat ⌊n2.1 * (options.length : ℚ)⌋) Mv.F), n2.2)

/-- `evaluateCandidate(sequence, generateValidMoves(sequence.length, rand), rand)`
- the `makeCandidate` closure of the hill-climbing and annealing
drivers, and the population seeding expression of the genetic driver. -/
def makeCandidate (sd : Rng → List Mv × Rng) (sequence : List Char) (rng : Rng) :
    Candidate × Rng :=
  let g := generateValidMoves sd sequence.length rng
  evaluateCandidate sd sequence g.1 g.2

/-- `moves.join('')`. -/
def mvChar : Mv → Char
  | Mv.L => 'L'
  | Mv.R => 'R'
  | Mv.F => 'F'

def movesString (moves : List Mv) : String := String.mk (moves.map mvChar)

/-- A step metric value (`string | number`). -/
inductive MetricValue : Type where
  | num : ℚ → MetricValue
  | str : String → MetricValue
deriving DecidableEq, Repr

/-- `value.toFixed(2)` modelled up to decimal-point formatting: a
deterministic function of the value (the integer count of hundredths,
rendered as a string). -/
def toFixed2 (q : ℚ) : String := toString (round (q * 100))

/-- A `FoldingStep` (metrics as label / value pairs; `structurePreview`
and `note` always present in the steps the drivers build). -/
structure FoldingStep where
  title : String
  description : String
  structurePreview : String
  metrics : List (String × MetricValue)
  note : String
deriving DecidableEq, Repr

/-- A `UniqueConformation`. -/
structure UniqueConformation where
  path : String
  fitness : ℕ
  contacts : ℕ
  isElite : Bool
  positions : List Point
deriving DecidableEq, Repr

/-- A `FoldingResult` (`uniqueConformations` present only for the
genetic driver). -/
structure FoldingResult where
  algorithm : String
  finalStructure : String
  stabilityScore : ℕ
  summary : String
  steps : List FoldingStep
  uniqueConformations : Option (List UniqueConformation)
deriving DecidableEq, Repr

/-! ## Hill climbing (`hillClimbing.ts`) -/

/-- `{iterations, restartInterval}` (source defaults 30 / 12 applied by
the caller). -/
structure HillClimbParams where
  iterations : ℕ
  restartInterval : ℕ
deriving DecidableEq, Repr

structure HCState where
  current : Candidate
  best : Candidate
  rng : Rng

/-- The periodic-restart prelude of iteration `iter`
(`restartInterval > 0 && iter > 0 && iter % restartInterval === 0`):
a fresh candidate replaces `current` only if its fitness is `≥`.
(When `restartInterval = 0`, JS `iter % 0` is `NaN` and the guard is
never taken; the Lean guard is likewise never true.) -/
def hcAfterRestart (sd : Rng → List Mv × Rng) (sequence : List Char)
    (restartInterval iter : ℕ) (st : HCState) : HCState :=
  if restartInterval > 0 ∧ iter > 0 ∧ iter % restartInterval = 0 then
    let r := makeCandidate sd sequence st.rng
    if r.1.fitness ≥ st.current.fitness then ⟨r.1, st.best, r.2⟩
    else ⟨st.current, st.best, r.2⟩
  else st

/-- The single mutated neighbour evaluated by iteration body
(`evaluateCandidate(sequence, mutateMoves(current.moves, rand), rand)`). -/
def hcNeighbor (sd : Rng → List Mv × Rng) (sequence : List Char) (st : HCState) :
    Candidate × Rng :=
  let m := mutateMoves st.current.moves st.rng
  evaluateCandidate sd sequence m.1 m.2

/-- One full iteration of the hill-climbing loop. -/
def hcIter (sd : Rng → List Mv × Rng) (sequence : List Char)
    (restartInterval iter : ℕ) (st : HCState) : HCState :=
  let st1 := hcAfterRestart sd sequence restartInterval iter st
  let nb := hcNeighbor sd sequence st1
  let current2 := if nb.1.fitness ≥ st1.current.fitness then nb.1 else st1.current
  let best2 := if current2.fitness > st1.best.fitness then current2 else st1.best
  ⟨current2, best2, nb.2⟩

/-- Hill-climbing state trajectory from a given generator state:
index `k` is the state after `k` loop iterations. -/
def hcStateFrom (sd : Rng → List Mv × Rng) (sequence : List Char)
    (restartInterval : ℕ) (rng0 : Rng) : ℕ → HCState
  | 0 =>
      let c := makeCandidate sd sequence rng0
      ⟨c.1, c.1, c.2⟩
  | k + 1 => hcIter sd sequence restartInterval k
      (hcStateFrom sd sequence restartInterval rng0 k)

/-- The trajectory of `runHillClimbingFolding` (seeded with
`sequence + 'hill'`). -/
def hcStateAt (env : JsEnv) (sequence : List Char) (restartInterval : ℕ) (k : ℕ) :
    HCState :=
  hcStateFrom env.sortDirs sequence restartInterval
    (seededRandom (sequence ++ ['h', 'i', 'l', 'l'])) k

/-- The step log entry recorded at the end of iteration `iter`
(0-based), reading the post-iteration state. -/
def hcStepEntry (restartInterval iter : ℕ) (st : HCState) : FoldingStep :=
  ⟨"Iteration " ++ toString (iter + 1),
   "Tweaked one move; kept it only if fitness improved or stayed equal.",
   movesString st.current.moves,
   [("Current H-H Contacts", MetricValue.num st.current.fitness),
    ("Best So Far", MetricValue.num st.best.fitness),
    ("Moves Changed", MetricValue.num 1)],
   if iter > 0 ∧ iter % restartInterval = 0 then
     "Restart injected diversity to escape local peaks."
   else "Climbing by local improvements only."⟩

/-- `runHillClimbingFolding`: the initialization step, one step per
iteration of the fixed budget, and the final-selection step; the
returned structure / score are the best candidate's. -/
def runHillClimbingFolding (env : JsEnv) (sequence : List Char)
    (params : HillClimbParams) : FoldingResult :=
  let sd := env.sortDirs
  let st0 := hcStateFrom sd sequence params.restartInterval
    (seededRandom (sequence ++ ['h', 'i', 'l', 'l'])) 0
  let initStep : FoldingStep :=
    ⟨"Initialization",
     "Generated a random self-avoiding conformation to start climbing.",
     movesString st0.current.moves,
     [("H-H Contacts", MetricValue.num st0.current.fitness),
      ("Restart Interval", MetricValue.num params.restartInterval)],
     "Hill climbing greedily moves toward better folds by local tweaks."⟩
  let iterSteps := (List.range params.iterations).map (fun iter =>
    hcStepEntry params.restartInterval iter
      (hcStateFrom sd sequence params.restartInterval
        (seededRandom (sequence ++ ['h', 'i', 'l', 'l'])) (iter + 1)))
  let stF := hcStateFrom sd sequence params.restartInterval
    (seededRandom (sequence ++ ['h', 'i', 'l', 'l'])) params.iterations
  let finalStep : FoldingStep :=
    ⟨"Final Selection",
     "Returned the highest-fitness conformation found during climbing.",
     movesString stF.best.moves,
     [("Stability (H-H contacts)", MetricValue.num stF.best.fitness),
      ("Iterations", MetricValue.num params.iterations)],
     "Greedy search may converge quickly but can miss distant optima."⟩
  ⟨"hill-climb", movesString stF.best.moves, stF.best.fitness,
   "Hill climbing makes local improvements to hydrophobic contact counts, with periodic restarts to avoid getting stuck.",
   initStep :: iterSteps ++ [finalStep], none⟩

/-! ## C4: what the hill-climbing iteration actually does -/

/-- Modelled from the spec: the set of all single-move-flip neighbours
of a move sequence (each position replaced by each of the two other
instructions) - what the claim says each iteration generates and
evaluates. -/
def singleMoveFlips (moves : List Mv) : List (List Mv) :=
  (List.range moves.length).flatMap (fun i =>
    (DIRECTIONS.filter (fun d => d ≠ moves.getD i Mv.F)).map (fun d => moves.set i d))

/-- A concrete abstract environment instance used by concrete runs:
the inconsistent-comparator shuffle returns `DIRECTIONS` unchanged,
`rand() < Math.exp(x)` is `false`, ambient entropy is `0`. -/
def trivEnv : JsEnv := ⟨fun r => (DIRECTIONS, r), fun _ _ => false, fun _ => 0⟩

/-- C4 counterexample: on `sequence = "A"` there are no single-move-flip
neighbours at all (so, per the claim, the very first iteration should
declare convergence and stop), yet the run never stops: its trace has
one entry per iteration of the whole budget, for budget 5 and budget 9
alike. -/
theorem c4_counterexample :
    singleMoveFlips (hcStateAt trivEnv ['A'] 12 0).current.moves = [] ∧
      (runHillClimbingFolding trivEnv ['A'] ⟨5, 12⟩).steps.length = 5 + 2 ∧
      (runHillClimbingFolding trivEnv ['A'] ⟨9, 12⟩).steps.length = 9 + 2 := by
  refine ⟨by decide, ?_, ?_⟩ <;>
    simp [runHillClimbingFolding, List.length_append]

/-- C4 amended: each iteration of `runHillClimbingFolding` generates
exactly ONE single-move-flip neighbour at a random index (one
`mutateMoves` + `evaluateCandidate` call), moves to it exactly when its
fitness is `≥` the current fitness, and the loop always runs the full
iteration budget: the trace has `iterations + 2` entries and there is
no convergence-based early stop; the current fitness never decreases. -/
theorem c4_actual_hill_climbing (env : JsEnv) (sequence : List Char)
    (params : HillClimbParams) :
    (runHillClimbingFolding env sequence params).steps.length =
        params.iterations + 2 ∧
      (∀ k,
        (hcStateAt env sequence params.restartInterval (k + 1)).current =
          (if (hcNeighbor env.sortDirs sequence
                (hcAfterRestart env.sortDirs sequence params.restartInterval k
                  (hcStateAt env sequence params.restartInterval k))).1.fitness ≥
              (hcAfterRestart env.sortDirs sequence params.restartInterval k
                (hcStateAt env sequence params.restartInterval k)).current.fitness
            then (hcNeighbor env.sortDirs sequence
                (hcAfterRestart env.sortDirs sequence params.restartInterval k
                  (hcStateAt env sequence params.restartInterval k))).1
            else (hcAfterRestart env.sortDirs sequence params.restartInterval k
                (hcStateAt env sequence params.restartInterval k)).current) ∧
        (hcStateAt env sequence params.restartInterval k).current.fitness ≤
          (hcStateAt env sequence params.restartInterval (k + 1)).current.fitness) := by
  constructor
  · simp [runHillClimbingFolding, List.length_append]
  · intro k
    have hstep : hcStateAt env sequence params.restartInterval (k + 1) =
        hcIter env.sortDirs sequence params.restartInterval k
          (hcStateAt env sequence params.restartInterval k) := rfl
    have hcur : (hcIter env.sortDirs sequence params.restartInterval k
        (hcStateAt env sequence params.restartInterval k)).current =
        (if (hcNeighbor env.sortDirs sequence
              (hcAfterRestart env.sortDirs sequence params.restartInterval k
                (hcStateAt env sequence params.restartInterval k))).1.fitness ≥
            (hcAfterRestart env.sortDirs sequence params.restartInterval k
              (hcStateAt env sequence params.restartInterval k)).current.fitness
          then (hcNeighbor env.sortDirs sequence
              (hcAfterRestart env.sortDirs sequence params.restartInterval k
                (hcStateAt env sequence params.restartInterval k))).1
          else (hcAfterRestart env.sortDirs sequence params.restartInterval k
              (hcStateAt env sequence params.restartInterval k)).current) := rfl
    refine ⟨by rw [hstep, hcur], ?_⟩
    rw [hstep, hcur]
    have hr : (hcStateAt env sequence params.restartInterval k).current.fitness ≤
        (hcAfterRestart env.sortDirs sequence params.restartInterval k
          (hcStateAt env sequence params.restartInterval k)).current.fitness := by
      simp only [hcAfterRestart]
      split_ifs with h1 h2
      · simpa using h2
      · simp
      · simp
    by_cases h : (hcNeighbor env.sortDirs sequence
          (hcAfterRestart env.sortDirs sequence params.restartInterval k
            (hcStateAt env sequence params.restartInterval k))).1.fitness ≥
        (hcAfterRestart env.sortDirs sequence params.restartInterval k
          (hcStateAt env sequence params.restartInterval k)).current.fitness
    · rw [if_pos h]
      exact le_trans hr h
    · rw [if_neg h]
      exact hr

/-- Witness for the amended C4 at a concrete input (the theorem has no
propositional hypotheses, but we also record a concrete evaluation). -/
theorem c4_witness :
    (runHillClimbingFolding trivEnv ['A', 'G'] ⟨3, 12⟩).steps.length = 3 + 2 ∧
      (hcStateAt trivEnv ['A', 'G'] 12 0).current.fitness ≤
        (hcStateAt trivEnv ['A', 'G'] 12 1).current.fitness :=
  ⟨(c4_actual_hill_climbing trivEnv ['A', 'G'] ⟨3, 12⟩).1,
    ((c4_actual_hill_climbing trivEnv ['A', 'G'] ⟨3, 12⟩).2 0).2⟩

/-! ## Simulated annealing (`simulatedAnnealing.ts`) -/

/-- `{iterations, startTemperature, coolingRate}` (source defaults
40 / 6 / 0.9 applied by the caller). -/
structure AnnealingParams where
  iterations : ℕ
  startTemperature : ℚ
  coolingRate : ℚ
deriving DecidableEq, Repr

structure SAState where
  current : Candidate
  best : Candidate
  temperature : ℚ
  rng : Rng

/-- One annealing iteration.  `delta > 0` short-circuits the Metropolis
draw (no `rand()` call); otherwise one `rand()` is compared against
`Math.exp(delta / Math.max(temperature, 1e-6))` through the abstract
`ltExp`.  The temperature cools after the step is recorded. -/
def saIter (env : JsEnv) (sequence : List Char) (coolingRate : ℚ)
    (st : SAState) : SAState × Bool :=
  let m := mutateMoves st.current.moves st.rng
  let nb := evaluateCandidate env.sortDirs sequence m.1 m.2
  let delta : ℤ := (nb.1.fitness : ℤ) - (st.current.fitness : ℤ)
  let ar : Bool × Rng :=
    if delta > 0 then (true, nb.2)
    else
      let r := nb.2.next
      (env.ltExp r.1 ((delta : ℚ) / max st.temperature (1 / 1000000)), r.2)
  let current2 := if ar.1 then nb.1 else st.current
  let best2 := if current2.fitness > st.best.fitness then current2 else st.best
  (⟨current2, best2, st.temperature * coolingRate, ar.2⟩, ar.1)

/-- Annealing state trajectory from a given generator state. -/
def saStateFrom (env : JsEnv) (sequence : List Char) (p : AnnealingParams)
    (rng0 : Rng) : ℕ → SAState
  | 0 =>
      let c := makeCandidate env.sortDirs sequence rng0
      ⟨c.1, c.1, p.startTemperature, c.2⟩
  | k + 1 => (saIter env sequence p.coolingRate (saStateFrom env sequence p rng0 k)).1

/-- The trajectory of `runSimulatedAnnealingFolding` (seeded with
`sequence + 'anneal'`). -/
def saStateAt (env : JsEnv) (sequence : List Char) (p : AnnealingParams) (k : ℕ) :
    SAState :=
  saStateFrom env sequence p (seededRandom (sequence ++ ['a', 'n', 'n', 'e', 'a', 'l'])) k

/-- The step recorded at the end of annealing iteration `iter`
(0-based): reads the pre-iteration temperature and the post-iteration
candidates and accept flag. -/
def saStepEntry (iter : ℕ) (pre : SAState) (post : SAState) (accept : Bool) :
    FoldingStep :=
  ⟨"Iteration " ++ toString (iter + 1),
   if accept then "Accepted neighbor based on Metropolis criterion."
   else "Rejected neighbor; kept current conformation.",
   movesString post.current.moves,
   [("Current H-H Contacts", MetricValue.num post.current.fitness),
    ("Best So Far", MetricValue.num post.best.fitness),
    ("Temperature", MetricValue.str (toFixed2 pre.temperature)),
    ("Accepted Move", MetricValue.str (if accept then "Yes" else "No"))],
   if (post.current.fitness : ℤ) - (pre.current.fitness : ℤ) > 0 then
     "Improving or equal move."
   else "Occasional worse moves keep search from freezing early."⟩

/-- `runSimulatedAnnealingFolding`. -/
def runSimulatedAnnealingFolding (env : JsEnv) (sequence : List Char)
    (p : AnnealingParams) : FoldingResult :=
  let rng0 := seededRandom (sequence ++ ['a', 'n', 'n', 'e', 'a', 'l'])
  let st0 := saStateFrom env sequence p rng0 0
  let initStep : FoldingStep :=
    ⟨"Initialization",
     "Started simulated annealing with a random conformation and high temperature.",
     movesString st0.current.moves,
     [("H-H Contacts", MetricValue.num st0.current.fitness),
      ("Temperature", MetricValue.str (toFixed2 st0.temperature)),
      ("Cooling Rate", MetricValue.num p.coolingRate)],
     "High temperature allows uphill and downhill moves to explore broadly."⟩
  let iterSteps := (List.range p.iterations).map (fun iter =>
    saStepEntry iter (saStateFrom env sequence p rng0 iter)
      (saStateFrom env sequence p rng0 (iter + 1))
      (saIter env sequence p.coolingRate (saStateFrom env sequence p rng0 iter)).2)
  let stF := saStateFrom env sequence p rng0 p.iterations
  let finalStep : FoldingStep :=
    ⟨"Final Selection",
     "Annealing complete; returning the best conformation encountered.",
     movesString stF.best.moves,
     [("Stability (H-H contacts)", MetricValue.num stF.best.fitness),
      ("Iterations", MetricValue.num p.iterations),
      ("Final Temperature", MetricValue.str (toFixed2 stF.temperature))],
     "Gradual cooling balances exploration and exploitation."⟩
  ⟨"simulated-annealing", movesString stF.best.moves, stF.best.fitness,
   "Simulated annealing explores folds with temperature-controlled randomness, accepting occasional worse moves to escape local optima while maximizing hydrophobic contacts.",
   initStep :: iterSteps ++ [finalStep], none⟩

/-! ## Genetic algorithm (`geneticAlgorithm.ts`) -/

/-- `{populationSize, generations, mutationRate}` (source defaults
18 / 12 / 0.001 applied by the caller). -/
structure GeneticParams where
  populationSize : ℕ
  generations : ℕ
  mutationRate : ℚ
deriving DecidableEq, Repr

/-- `residueContributions`: per-residue count of H-H contacts the
residue participates in (each adjacent hydrophobic pair `(i, j)`,
`j ≥ i + 2`, adds one to both endpoints). -/
def residueContributions (sequence : List Char) (positions : List Point) : List ℕ :=
  let mask := hydrophobicMask sequence
  (List.range sequence.length).map (fun k =>
    if mask.getD k false then
      ((List.range positions.length).filter (fun j =>
        decide (k + 2 ≤ j) && mask.getD j false &&
          hhAdjacent (positions.getD k origin) (positions.getD j origin))).length +
      ((List.range positions.length).filter (fun i =>
        decide (i + 2 ≤ k) && mask.getD i false &&
          hhAdjacent (positions.getD i origin) (positions.getD k origin))).length
    else 0)

/-- `chooseCrossoverPoint`: the interior index (scanned
`1 ≤ i < length - 1`, strict improvement) maximising the divergence of
per-residue contributions, started from `(⌊length/2⌋, 0)`, clamped to
`[0, length - 2]` (`Math.max(0, ·)` is the identity on `ℕ`). -/
def chooseCrossoverPoint (parentA parentB : Candidate) (sequence : List Char) : ℕ :=
  let contribA := residueContributions sequence parentA.positions
  let contribB := residueContributions sequence parentB.positions
  let r := (List.range' 1 (sequence.length - 2)).foldl
    (fun (acc : ℕ × ℕ) i =>
      let gap := ((contribA.getD i 0 : ℤ) - (contribB.getD i 0 : ℤ)).natAbs
      if gap > acc.2 then (i, gap) else acc)
    (sequence.length / 2, 0)
  let upperBound := sequence.length - 2
  min upperBound r.1

/-- `strategicCrossover`: splice the higher-contribution front with the
other parent's back; on self-collision try the reversed splice, then a
mutation of the fitter parent, then a fresh random walk. -/
def strategicCrossover (sd : Rng → List Mv × Rng) (parentA parentB : Candidate)
    (sequence : List Char) (rng : Rng) : List Mv × Rng :=
  let pivot := chooseCrossoverPoint parentA parentB sequence
  let contribA := residueContributions sequence parentA.positions
  let contribB := residueContributions sequence parentB.positions
  let frontA := (contribA.take (pivot + 1)).sum
  let frontB := (contribB.take (pivot + 1)).sum
  let useAFront := frontA ≥ frontB
  let pre := if useAFront then parentA.moves.take pivot else parentB.moves.take pivot
  let suf := if useAFront then parentB.moves.drop pivot else parentA.moves.drop pivot
  let candidate := pre ++ suf
  if (tracePath candidate).2 then (candidate, rng)
  else
    let flipped := suf ++ pre
    if (tracePath flipped).2 then (flipped, rng)
    else
      let saferParent := if parentA.fitness ≥ parentB.fitness then parentA.moves
        else parentB.moves
      let m := mutateMoves saferParent rng
      if (tracePath m.1).2 then m
      else generateValidMoves sd sequence.length m.2

/-- The subtraction scan of `selectParent`
(`pick -= max(0, fitness); if (pick <= 0) return candidate`), with the
source's `population[population.length - 1]` fallback. -/
def selectParentPick : List Candidate → ℚ → Candidate → Candidate
  | [], _, dflt => dflt
  | c :: rest, pick, dflt =>
      let pick' := pick - (max 0 c.fitness : ℕ)
      if pick' ≤ 0 then c else selectParentPick rest pick' dflt

/-- `selectParent`: fitness-proportional sampling over
`max(0, fitness)` weights, uniform fallback when the total weight is
zero. -/
def selectParent (population : List Candidate) (rng : Rng) : Candidate × Rng :=
  let totalFitness : ℕ := (population.map (fun c => max 0 c.fitness)).sum
  let r := rng.next
  if totalFitness = 0 then
    (population.getD (Int.toNat ⌊r.1 * (population.length : ℚ)⌋) dfltCand, r.2)
  else
    (selectParentPick population (r.1 * (totalFitness : ℚ))
      (population.getD (population.length - 1) dfltCand), r.2)

/-- Stable descending insertion - the semantics of the source's
`[...combined].sort((a, b) => b.fitness - a.fitness)` (JS `sort` is
stable). -/
def insertByFitness (c : Candidate) : List Candidate → List Candidate
  | [] => [c]
  | d :: rest =>
      if c.fitness > d.fitness then c :: d :: rest else d :: insertByFitness c rest

def sortByFitnessDesc (l : List Candidate) : List Candidate :=
  l.foldr insertByFitness []

/-- The subtraction scan of the survivor loop: index of the first
candidate driving the target to `≤ 0`, else `pool.length - 1`. -/
def survivorPick : List Candidate → ℚ → ℕ → ℕ
  | [], _, idx => idx - 1
  | c :: rest, target, idx =>
      let t' := target - (max 0 c.fitness : ℕ)
      if t' ≤ 0 then idx else survivorPick rest t' (idx + 1)

/-- The `while (survivors.length < populationSize && pool.length > 0)`
loop: draw one index (uniform when the pool's total weight is zero,
else fitness-proportional), move that candidate from the pool to the
survivors (`pool.splice(pick, 1)`).  The fuel is the initial pool
length, an upper bound on the number of iterations. -/
def survivorLoop (populationSize : ℕ) :
    ℕ → List Candidate → List Candidate → Rng → List Candidate × Rng
  | 0, survivors, _, rng => (survivors, rng)
  | fuel + 1, survivors, pool, rng =>
      if survivors.length < populationSize ∧ 0 < pool.length then
        let totalFitness : ℕ := (pool.map (fun c => max 0 c.fitness)).sum
        let r := rng.next
        let pick : ℕ :=
          if totalFitness = 0 then Int.toNat ⌊r.1 * (pool.length : ℚ)⌋
          else survivorPick pool (r.1 * (totalFitness : ℚ)) 0
        survivorLoop populationSize fuel (survivors ++ [pool.getD pick dfltCand])
          (pool.eraseIdx pick) r.2
      else (survivors, rng)

/-- The `while (survivors.length < populationSize &&
sorted[survivors.length])` backfill. -/
def survivorTail (populationSize : ℕ) (sorted : List Candidate) :
    ℕ → List Candidate → List Candidate
  | 0, survivors => survivors
  | fuel + 1, survivors =>
      if survivors.length < populationSize ∧ survivors.length < sorted.length then
        survivorTail populationSize sorted fuel
          (survivors ++ [sorted.getD survivors.length dfltCand])
      else survivors

/-- `selectSurvivors`: sort descending, keep the top
`max(1, ⌊length·0.05⌋)` as elites (`⌊length·0.05⌋ = length / 20`
exactly for these magnitudes), fill the rest by fitness-weighted
sampling without replacement, backfill from the sorted list; returns
the survivors and the elite count. -/
def selectSurvivors (combined : List Candidate) (populationSize : ℕ) (rng : Rng) :
    (List Candidate × ℕ) × Rng :=
  let sorted := sortByFitnessDesc combined
  let eliteCount := max 1 (sorted.length / 20)
  let elites := sorted.take eliteCount
  let pool := sorted.drop eliteCount
  let lp := survivorLoop populationSize pool.length elites pool rng
  ((survivorTail populationSize sorted populationSize lp.1, eliteCount), lp.2)

/-- The `while (children.length < populationSize)` reproduction loop
(one child per iteration: two parent selections, a crossover, an
evaluation). -/
def gaChildren (sd : Rng → List Mv × Rng) (sequence : List Char)
    (population : List Candidate) : ℕ → Rng → List Candidate × Rng
  | 0, rng => ([], rng)
  | cnt + 1, rng =>
      let pa := selectParent population rng
      let pb := selectParent population pa.2
      let mv := strategicCrossover sd pa.1 pb.1 sequence pb.2
      let child := evaluateCandidate sd sequence mv.1 mv.2
      let rest := gaChildren sd sequence population cnt child.2
      (child.1 :: rest.1, rest.2)

/-- The post-selection mutation pass (`survivors.map((candidate, idx) => …)`):
elites (`idx < elites`) pass through; every other slot draws one
`rand()` and, below `mutationRate`, is mutated and re-evaluated; also
counts `mutationsApplied`. -/
def gaMutatePass (sd : Rng → List Mv × Rng) (sequence : List Char)
    (mutationRate : ℚ) (elites : ℕ) :
    List Candidate → ℕ → Rng → (List Candidate × ℕ) × Rng
  | [], _, rng => (([], 0), rng)
  | c :: rest, idx, rng =>
      if idx < elites then
        let t := gaMutatePass sd sequence mutationRate elites rest (idx + 1) rng
        ((c :: t.1.1, t.1.2), t.2)
      else
        let r := rng.next
        if r.1 < mutationRate then
          let m := mutateMoves c.moves r.2
          let c' := evaluateCandidate sd sequence m.1 m.2
          let t := gaMutatePass sd sequence mutationRate elites rest (idx + 1) c'.2
          ((c'.1 :: t.1.1, t.1.2 + 1), t.2)
        else
          let t := gaMutatePass sd sequence mutationRate elites rest (idx + 1) r.2
          ((c :: t.1.1, t.1.2), t.2)

/-- `population.reduce((best, cand) => cand.fitness > best.fitness ? cand : best,
population[0])`. -/
def bestOf (population : List Candidate) : Candidate :=
  population.foldl (fun best cand => if cand.fitness > best.fitness then cand else best)
    (population.getD 0 dfltCand)

structure GAState where
  population : List Candidate
  globalBest : Candidate
  lastElites : ℕ
  rng : Rng

/-- One generation of `runGeneticFolding`: reproduction, survivor
selection, mutation pass, best tracking - and the step log entry
recorded for it. -/
def gaGenFull (sd : Rng → List Mv × Rng) (sequence : List Char)
    (populationSize : ℕ) (mutationRate : ℚ) (gen : ℕ) (st : GAState) :
    GAState × FoldingStep :=
  let ch := gaChildren sd sequence st.population populationSize st.rng
  let combined := st.population ++ ch.1
  let sv := selectSurvivors combined populationSize ch.2
  let mp := gaMutatePass sd sequence mutationRate sv.1.2 sv.1.1 0 sv.2
  let nextPopulation := mp.1.1
  let generationBest := bestOf nextPopulation
  let globalBest2 := if generationBest.fitness > st.globalBest.fitness then generationBest
    else st.globalBest
  let averageFitness : ℚ :=
    ((nextPopulation.map (fun c => c.fitness)).sum : ℕ) / (nextPopulation.length : ℚ)
  let diversity := ((nextPopulation.map (fun c => movesString c.moves)).dedup).length
  (⟨nextPopulation, globalBest2, sv.1.2, mp.2⟩,
   ⟨"Generation " ++ toString (gen + 1),
    "Population → Reproduction → Selection → Mutation cycle completed.",
    movesString generationBest.moves,
    [("Best H-H Contacts", MetricValue.num generationBest.fitness),
     ("Average Fitness", MetricValue.str (toFixed2 averageFitness)),
     ("Unique Conformations", MetricValue.num diversity),
     ("Elites Preserved", MetricValue.num sv.1.2),
     ("Mutations Applied", MetricValue.num mp.1.2)],
    "Elitism keeps the strongest 5%, fitness-proportional selection keeps promising diversity, and rare mutations (<0.1%) help escape local optima."⟩)

/-- Population seeding (`Array.from({length: populationSize}, () => …)`). -/
def gaInitPop (sd : Rng → List Mv × Rng) (sequence : List Char) :
    ℕ → Rng → List Candidate × Rng
  | 0, rng => ([], rng)
  | cnt + 1, rng =>
      let c := makeCandidate sd sequence rng
      let rest := gaInitPop sd sequence cnt c.2
      (c.1 :: rest.1, rest.2)

/-- Genetic state trajectory from a given generator state: index `gen`
is the state after `gen` generations. -/
def gaStateFrom (sd : Rng → List Mv × Rng) (sequence : List Char) (p : GeneticParams)
    (rng0 : Rng) : ℕ → GAState
  | 0 =>
      let ip := gaInitPop sd sequence p.populationSize rng0
      ⟨ip.1, bestOf ip.1, 0, ip.2⟩
  | k + 1 => (gaGenFull sd sequence p.populationSize p.mutationRate k
      (gaStateFrom sd sequence p rng0 k)).1

/-- The trajectory of `runGeneticFolding` (seeded with the sequence
itself). -/
def gaStateAt (env : JsEnv) (sequence : List Char) (p : GeneticParams) (gen : ℕ) :
    GAState :=
  gaStateFrom env.sortDirs sequence p (seededRandom sequence) gen

/-- The `uniqueMap` fold: keyed by move string, keep the highest
fitness (replacement preserves the entry's position, as a JS `Map`
does), and mark elite membership. -/
def uniqueInsert (path : String) (cand : Candidate) (isElite : Bool) :
    List UniqueConformation → List UniqueConformation
  | [] => [⟨path, cand.fitness, cand.fitness, isElite, cand.positions⟩]
  | u :: rest =>
      if u.path = path then
        if cand.fitness > u.fitness then
          ⟨path, cand.fitness, cand.fitness, isElite, cand.positions⟩ :: rest
        else if isElite then ⟨u.path, u.fitness, u.contacts, true, u.positions⟩ :: rest
        else u :: rest
      else u :: uniqueInsert path cand isElite rest

def buildUniqueGo (lastElites : ℕ) :
    List Candidate → ℕ → List UniqueConformation → List UniqueConformation
  | [], _, acc => acc
  | c :: rest, idx, acc =>
      buildUniqueGo lastElites rest (idx + 1)
        (uniqueInsert (movesString c.moves) c (idx < lastElites) acc)

/-- Stable descending sort of the unique conformations
(`.sort((a, b) => b.fitness - a.fitness)`). -/
def insertUniqueByFitness (u : UniqueConformation) :
    List UniqueConformation → List UniqueConformation
  | [] => [u]
  | v :: rest =>
      if u.fitness > v.fitness then u :: v :: rest else v :: insertUniqueByFitness u rest

def sortUniqueDesc (l : List UniqueConformation) : List UniqueConformation :=
  l.foldr insertUniqueByFitness []

/-- `runGeneticFolding`. -/
def runGeneticFolding (env : JsEnv) (sequence : List Char) (p : GeneticParams) :
    FoldingResult :=
  let sd := env.sortDirs
  let st0 := gaStateFrom sd sequence p (seededRandom sequence) 0
  let initStep : FoldingStep :=
    ⟨"Population Initialization",
     "Created " ++ toString p.populationSize ++
       " random self-avoiding conformations to seed the search.",
     movesString (st0.population.getD 0 dfltCand).moves,
     [("Initial Diversity",
        MetricValue.num (((st0.population.map (fun c => movesString c.moves)).dedup).length)),
      ("Best H-H Contacts", MetricValue.num st0.globalBest.fitness)],
     "Random diversity provides the genetic material for crossover and mutation."⟩
  let genSteps := (List.range p.generations).map (fun gen =>
    (gaGenFull sd sequence p.populationSize p.mutationRate gen
      (gaStateFrom sd sequence p (seededRandom sequence) gen)).2)
  let stF := gaStateFrom sd sequence p (seededRandom sequence) p.generations
  let finalStep : FoldingStep :=
    ⟨"Final Selection",
     "Survivors converged; returning the conformation with the most H-H contacts discovered.",
     movesString stF.globalBest.moves,
     [("Stability (H-H contacts)", MetricValue.num stF.globalBest.fitness),
      ("Generations", MetricValue.num p.generations),
      ("Population Size", MetricValue.num p.populationSize)],
     "Higher H-H contacts indicate tighter hydrophobic packing and a more compact fold."⟩
  ⟨"genetic", movesString stF.globalBest.moves, stF.globalBest.fitness,
   "Genetic search builds self-avoiding lattice conformations, rewards hydrophobic contacts, and evolves them with strategic crossover, elitist selection, and rare mutations.",
   initStep :: genSteps ++ [finalStep],
   some (sortUniqueDesc (buildUniqueGo stF.lastElites stF.population 0 []))⟩

/-! ## C7: the self-avoidance invariant -/

/-- The invariant of the data model: no duplicate coordinate,
`positions[0] = (0,0)`, `positions.length = sequence.length`. -/
def selfAvoidingInv (sequence : List Char) (c : Candidate) : Prop :=
  c.positions.Nodup ∧ c.positions.getD 0 origin = origin ∧
    c.positions.length = sequence.length

theorem tracePathGo_spec :
    ∀ (moves : List Mv) (o : ℕ) (acc visited : List Point),
      acc.Nodup → (∀ pt, pt ∈ visited ↔ pt ∈ acc) →
      (tracePathGo o acc visited moves).2 = true →
      ∃ ext : List Point, (tracePathGo o acc visited moves).1 = acc.reverse ++ ext ∧
        (tracePathGo o acc visited moves).1.Nodup ∧
        (tracePathGo o acc visited moves).1.length = acc.length + moves.length := by
  intro moves
  induction moves with
  | nil =>
    intro o acc visited hnd _ _
    exact ⟨[], by simp [tracePathGo], by simp [tracePathGo, hnd], by simp [tracePathGo]⟩
  | cons mv rest ih =>
    intro o acc visited hnd hiff hvalid
    by_cases hmem : (⟨(acc.headD origin).x + (stepVector (rotate o mv)).x,
        (acc.headD origin).y + (stepVector (rotate o mv)).y⟩ : Point) ∈ visited
    · exfalso
      have : (tracePathGo o acc visited (mv :: rest)).2 = false := by
        simp only [tracePathGo]
        rw [if_pos hmem]
      rw [this] at hvalid
      exact Bool.false_ne_true hvalid
    · have hstep : tracePathGo o acc visited (mv :: rest) =
          tracePathGo (rotate o mv)
            (⟨(acc.headD origin).x + (stepVector (rotate o mv)).x,
              (acc.headD origin).y + (stepVector (rotate o mv)).y⟩ :: acc)
            (⟨(acc.headD origin).x + (stepVector (rotate o mv)).x,
              (acc.headD origin).y + (stepVector (rotate o mv)).y⟩ :: visited) rest := by
        simp only [tracePathGo]
        rw [if_neg hmem]
      rw [hstep] at hvalid ⊢
      have hnd' : (⟨(acc.headD origin).x + (stepVector (rotate o mv)).x,
          (acc.headD origin).y + (stepVector (rotate o mv)).y⟩ :: acc).Nodup := by
        refine List.nodup_cons.mpr ⟨?_, hnd⟩
        intro hmem'
        exact hmem ((hiff _).mpr hmem')
      have hiff' : ∀ pt, pt ∈ (⟨(acc.headD origin).x + (stepVector (rotate o mv)).x,
          (acc.headD origin).y + (stepVector (rotate o mv)).y⟩ :: visited) ↔
          pt ∈ (⟨(acc.headD origin).x + (stepVector (rotate o mv)).x,
          (acc.headD origin).y + (stepVector (rotate o mv)).y⟩ :: acc) := by
        intro pt
        simp [hiff pt]
      obtain ⟨ext, h1, h2, h3⟩ := ih _ _ _ hnd' hiff' hvalid
      refine ⟨⟨(acc.headD origin).x + (stepVector (rotate o mv)).x,
          (acc.headD origin).y + (stepVector (rotate o mv)).y⟩ :: ext, ?_, h2, ?_⟩
      · rw [h1, List.reverse_cons, List.append_assoc]
        rfl
      · rw [h3]
        simp only [List.length_cons]
        omega

theorem tracePath_spec (moves : List Mv) (h : (tracePath moves).2 = true) :
    (tracePath moves).1.Nodup ∧ (tracePath moves).1.getD 0 origin = origin ∧
      (tracePath moves).1.length = moves.length + 1 := by
  obtain ⟨ext, h1, h2, h3⟩ := tracePathGo_spec moves 0 [origin] [origin]
    (by simp) (fun pt => Iff.rfl) h
  refine ⟨h2, ?_, ?_⟩
  · show (tracePathGo 0 [origin] [origin] moves).1.getD 0 origin = origin
    rw [h1]
    rfl
  · show (tracePathGo 0 [origin] [origin] moves).1.length = moves.length + 1
    rw [h3]
    simp [Nat.add_comm]

theorem tracePathGo_replicate_straight :
    ∀ (k : ℕ) (y : ℤ) (acc visited : List Point),
      acc.headD origin = ⟨0, y⟩ → (∀ pt ∈ visited, pt.y ≤ y) →
      (tracePathGo 0 acc visited (List.replicate k Mv.F)).2 = true := by
  intro k
  induction k with
  | zero => intro y acc visited _ _; rfl
  | succ k ih =>
    intro y acc visited hhead hvis
    rw [List.replicate_succ]
    have hnext : (⟨(acc.headD origin).x + (stepVector (rotate 0 Mv.F)).x,
        (acc.headD origin).y + (stepVector (rotate 0 Mv.F)).y⟩ : Point) = ⟨0, y + 1⟩ := by
      rw [hhead]
      rfl
    have hmem : (⟨(acc.headD origin).x + (stepVector (rotate 0 Mv.F)).x,
        (acc.headD origin).y + (stepVector (rotate 0 Mv.F)).y⟩ : Point) ∉ visited := by
      rw [hnext]
      intro hmem
      have hy : (y + 1 : ℤ) ≤ y := hvis _ hmem
      omega
    have hstep : tracePathGo 0 acc visited (Mv.F :: List.replicate k Mv.F) =
        tracePathGo (rotate 0 Mv.F)
          (⟨(acc.headD origin).x + (stepVector (rotate 0 Mv.F)).x,
            (acc.headD origin).y + (stepVector (rotate 0 Mv.F)).y⟩ :: acc)
          (⟨(acc.headD origin).x + (stepVector (rotate 0 Mv.F)).x,
            (acc.headD origin).y + (stepVector (rotate 0 Mv.F)).y⟩ :: visited)
          (List.replicate k Mv.F) := by
      simp only [tracePathGo]
      rw [if_neg hmem]
    rw [hstep, hnext]
    refine ih (y + 1) _ _ rfl ?_
    intro pt hpt
    rcases List.mem_cons.mp hpt with hpt | hpt
    · rw [hpt]
    · exact le_trans (hvis pt hpt) (by omega)

theorem tracePath_replicate_F_valid (k : ℕ) :
    (tracePath (List.replicate k Mv.F)).2 = true := by
  refine tracePathGo_replicate_straight k 0 [origin] [origin] rfl ?_
  intro pt hpt
  rcases List.mem_cons.mp hpt with hpt | hpt
  · rw [hpt]
    simp [origin]
  · simp at hpt

theorem evalAttempts_inv (sd : Rng → List Mv × Rng) (sequence : List Char)
    (hseq : sequence ≠ []) :
    ∀ (att : ℕ) (mv : List Mv) (rng : Rng),
      selfAvoidingInv sequence (evalAttempts sd sequence att mv rng).1 := by
  have hne : sequence.length ≠ 0 := by
    simpa [List.length_eq_zero] using hseq
  intro att
  induction att with
  | zero =>
    intro mv rng
    obtain ⟨h1, h2, h3⟩ := tracePath_spec (List.replicate (sequence.length - 1) Mv.F)
      (tracePath_replicate_F_valid (sequence.length - 1))
    have hc : (evalAttempts sd sequence 0 mv rng).1.positions =
        (tracePath (List.replicate (sequence.length - 1) Mv.F)).1 := rfl
    refine ⟨by rw [hc]; exact h1, by rw [hc]; exact h2, ?_⟩
    rw [hc, h3, List.length_replicate]
    omega
  | succ att ih =>
    intro mv rng
    by_cases h : (tracePath mv).2 = true ∧ (tracePath mv).1.length = sequence.length
    · have hc : (evalAttempts sd sequence (att + 1) mv rng).1 =
          ⟨mv, (tracePath mv).1, countHHContacts sequence (tracePath mv).1⟩ := by
        simp only [evalAttempts]
        rw [if_pos h]
      obtain ⟨h1, h2, _⟩ := tracePath_spec mv h.1
      exact ⟨by rw [hc]; exact h1, by rw [hc]; exact h2, by rw [hc]; exact h.2⟩
    · have hc : (evalAttempts sd sequence (att + 1) mv rng).1 =
          (evalAttempts sd sequence att
            (generateValidMoves sd sequence.length rng).1
            (generateValidMoves sd sequence.length rng).2).1 := by
        simp only [evalAttempts]
        rw [if_neg h]
      rw [hc]
      exact ih _ _

theorem evaluateCandidate_inv (sd : Rng → List Mv × Rng) (sequence : List Char)
    (hseq : sequence ≠ []) (mv : List Mv) (rng : Rng) :
    selfAvoidingInv sequence (evaluateCandidate sd sequence mv rng).1 :=
  evalAttempts_inv sd sequence hseq 5 mv rng

theorem makeCandidate_inv (sd : Rng → List Mv × Rng) (sequence : List Char)
    (hseq : sequence ≠ []) (rng : Rng) :
    selfAvoidingInv sequence (makeCandidate sd sequence rng).1 :=
  evaluateCandidate_inv sd sequence hseq _ _

theorem hcStateFrom_inv (sd : Rng → List Mv × Rng) (sequence : List Char)
    (hseq : sequence ≠ []) (ri : ℕ) (rng0 : Rng) :
    ∀ k, selfAvoidingInv sequence (hcStateFrom sd sequence ri rng0 k).current ∧
      selfAvoidingInv sequence (hcStateFrom sd sequence ri rng0 k).best := by
  intro k
  induction k with
  | zero =>
    exact ⟨makeCandidate_inv sd sequence hseq rng0, makeCandidate_inv sd sequence hseq rng0⟩
  | succ k ih =>
    obtain ⟨hcur, hbest⟩ := ih
    set st := hcStateFrom sd sequence ri rng0 k
    have h1 : selfAvoidingInv sequence (hcAfterRestart sd sequence ri k st).current := by
      simp only [hcAfterRestart]
      split_ifs <;>
        first
          | exact makeCandidate_inv sd sequence hseq _
          | exact hcur
    have h1b : selfAvoidingInv sequence (hcAfterRestart sd sequence ri k st).best := by
      simp only [hcAfterRestart]
      split_ifs <;> exact hbest
    have hstep : hcStateFrom sd sequence ri rng0 (k + 1) = hcIter sd sequence ri k st := rfl
    rw [hstep]
    have hcur2 : selfAvoidingInv sequence (hcIter sd sequence ri k st).current := by
      have hc : (hcIter sd sequence ri k st).current =
          (if (hcNeighbor sd sequence (hcAfterRestart sd sequence ri k st)).1.fitness ≥
              (hcAfterRestart sd sequence ri k st).current.fitness
            then (hcNeighbor sd sequence (hcAfterRestart sd sequence ri k st)).1
            else (hcAfterRestart sd sequence ri k st).current) := rfl
      rw [hc]
      split_ifs
      · exact evaluateCandidate_inv sd sequence hseq _ _
      · exact h1
    refine ⟨hcur2, ?_⟩
    have hb : (hcIter sd sequence ri k st).best =
        (if (hcIter sd sequence ri k st).current.fitness >
            (hcAfterRestart sd sequence ri k st).best.fitness
          then (hcIter sd sequence ri k st).current
          else (hcAfterRestart sd sequence ri k st).best) := rfl
    rw [hb]
    split_ifs
    · exact hcur2
    · exact h1b

theorem saStateFrom_inv (env : JsEnv) (sequence : List Char)
    (hseq : sequence ≠ []) (p : AnnealingParams) (rng0 : Rng) :
    ∀ k, selfAvoidingInv sequence (saStateFrom env sequence p rng0 k).current ∧
      selfAvoidingInv sequence (saStateFrom env sequence p rng0 k).best := by
  intro k
  induction k with
  | zero =>
    exact ⟨makeCandidate_inv env.sortDirs sequence hseq rng0,
      makeCandidate_inv env.sortDirs sequence hseq rng0⟩
  | succ k ih =>
    obtain ⟨hcur, hbest⟩ := ih
    set st := saStateFrom env sequence p rng0 k
    have hstep : saStateFrom env sequence p rng0 (k + 1) =
        (saIter env sequence p.coolingRate st).1 := rfl
    rw [hstep]
    have hcur2 : selfAvoidingInv sequence (saIter env sequence p.coolingRate st).1.current := by
      have hc : (saIter env sequence p.coolingRate st).1.current =
          (if (saIter env sequence p.coolingRate st).2 = true
            then (evaluateCandidate env.sortDirs sequence
              (mutateMoves st.current.moves st.rng).1
              (mutateMoves st.current.moves st.rng).2).1
            else st.current) := by
        simp only [saIter]
      rw [hc]
      split_ifs
      · exact evaluateCandidate_inv env.sortDirs sequence hseq _ _
      · exact hcur
    refine ⟨hcur2, ?_⟩
    have hb : (saIter env sequence p.coolingRate st).1.best =
        (if (saIter env sequence p.coolingRate st).1.current.fitness > st.best.fitness
          then (saIter env sequence p.coolingRate st).1.current else st.best) := by
      simp only [saIter]
    rw [hb]
    split_ifs
    · exact hcur2
    · exact hbest

/-- Environment contract for the abstract comparator shuffle: sorting
only consumes `rand()` calls, it never replaces the generator (the
returned `Rng` carries the same stream). -/
def sdStreamPres (sd : Rng → List Mv × Rng) : Prop :=
  ∀ r, ((sd r).2).stream = r.stream

theorem gvmInner_stream (sd : Rng → List Mv × Rng) (hsd : sdStreamPres sd) :
    ∀ (cnt o : ℕ) (cur : Point) (vis : List Point) (acc : List Mv) (rng : Rng),
      ((gvmInner sd cnt o cur vis acc rng).2).stream = rng.stream := by
  intro cnt
  induction cnt with
  | zero => intro o cur vis acc rng; rfl
  | succ cnt ih =>
    intro o cur vis acc rng
    simp only [gvmInner]
    rcases hp : pickDir (sd rng).1 o cur vis with _ | ⟨d, o2, nx⟩
    · exact hsd rng
    · exact (ih o2 nx _ _ _).trans (hsd rng)

theorem gvmAttempts_stream (sd : Rng → List Mv × Rng) (hsd : sdStreamPres sd)
    (movesNeeded : ℕ) :
    ∀ (att : ℕ) (rng : Rng),
      ((gvmAttempts sd movesNeeded att rng).2).stream = rng.stream := by
  intro att
  induction att with
  | zero => intro rng; rfl
  | succ att ih =>
    intro rng
    have hs := gvmInner_stream sd hsd movesNeeded 0 origin [origin] [] rng
    rcases hg : gvmInner sd movesNeeded 0 origin [origin] [] rng with ⟨o, r'⟩
    rw [hg] at hs
    simp only [gvmAttempts, hg]
    cases o with
    | some mv => exact hs
    | none => exact (ih r').trans hs

theorem generateValidMoves_stream (sd : Rng → List Mv × Rng) (hsd : sdStreamPres sd)
    (len : ℕ) (rng : Rng) :
    ((generateValidMoves sd len rng).2).stream = rng.stream := by
  simp only [generateValidMoves]
  split_ifs
  · rfl
  · exact gvmAttempts_stream sd hsd (len - 1) 20 rng

theorem evalAttempts_stream (sd : Rng → List Mv × Rng) (hsd : sdStreamPres sd)
    (sequence : List Char) :
    ∀ (att : ℕ) (mv : List Mv) (rng : Rng),
      ((evalAttempts sd sequence att mv rng).2).stream = rng.stream := by
  intro att
  induction att with
  | zero => intro mv rng; rfl
  | succ att ih =>
    intro mv rng
    simp only [evalAttempts]
    split_ifs
    · rfl
    · exact (ih _ _).trans (generateValidMoves_stream sd hsd sequence.length rng)

theorem evaluateCandidate_stream (sd : Rng → List Mv × Rng) (hsd : sdStreamPres sd)
    (sequence : List Char) (mv : List Mv) (rng : Rng) :
    ((evaluateCandidate sd sequence mv rng).2).stream = rng.stream :=
  evalAttempts_stream sd hsd sequence 5 mv rng

theorem makeCandidate_stream (sd : Rng → List Mv × Rng) (hsd : sdStreamPres sd)
    (sequence : List Char) (rng : Rng) :
    ((makeCandidate sd sequence rng).2).stream = rng.stream :=
  (evaluateCandidate_stream sd hsd sequence _ _).trans
    (generateValidMoves_stream sd hsd sequence.length rng)

theorem mutateMoves_stream (moves : List Mv) (rng : Rng) :
    ((mutateMoves moves rng).2).stream = rng.stream := by
  simp only [mutateMoves]
  split_ifs <;> rfl

theorem selectParent_stream (population : List Candidate) (rng : Rng) :
    ((selectParent population rng).2).stream = rng.stream := by
  simp only [selectParent]
  split_ifs <;> rfl

theorem strategicCrossover_stream (sd : Rng → List Mv × Rng) (hsd : sdStreamPres sd)
    (pa pb : Candidate) (sequence : List Char) (rng : Rng) :
    ((strategicCrossover sd pa pb sequence rng).2).stream = rng.stream := by
  simp only [strategicCrossover]
  split_ifs <;>
    first
      | rfl
      | exact mutateMoves_stream _ rng
      | exact (generateValidMoves_stream sd hsd sequence.length _).trans
          (mutateMoves_stream _ rng)

theorem gaChildren_stream (sd : Rng → List Mv × Rng) (hsd : sdStreamPres sd)
    (sequence : List Char) (population : List Candidate) :
    ∀ (cnt : ℕ) (rng : Rng),
      ((gaChildren sd sequence population cnt rng).2).stream = rng.stream := by
  intro cnt
  induction cnt with
  | zero => intro rng; rfl
  | succ cnt ih =>
    intro rng
    refine (ih _).trans ?_
    refine (evaluateCandidate_stream sd hsd sequence _ _).trans ?_
    refine (strategicCrossover_stream sd hsd _ _ sequence _).trans ?_
    exact (selectParent_stream _ _).trans (selectParent_stream _ _)

theorem survivorLoop_stream (populationSize : ℕ) :
    ∀ (fuel : ℕ) (survivors pool : List Candidate) (rng : Rng),
      ((survivorLoop populationSize fuel survivors pool rng).2).stream = rng.stream := by
  intro fuel
  induction fuel with
  | zero => intro survivors pool rng; rfl
  | succ fuel ih =>
    intro survivors pool rng
    simp only [survivorLoop]
    split_ifs <;> first | exact ih _ _ _ | rfl

theorem selectSurvivors_stream (combined : List Candidate) (populationSize : ℕ)
    (rng : Rng) :
    ((selectSurvivors combined populationSize rng).2).stream = rng.stream :=
  survivorLoop_stream populationSize _ _ _ rng

theorem gaMutatePass_stream (sd : Rng → List Mv × Rng) (hsd : sdStreamPres sd)
    (sequence : List Char) (mutationRate : ℚ) (elites : ℕ) :
    ∀ (l : List Candidate) (idx : ℕ) (rng : Rng),
      ((gaMutatePass sd sequence mutationRate elites l idx rng).2).stream = rng.stream := by
  intro l
  induction l with
  | nil => intro idx rng; rfl
  | cons c rest ih =>
    intro idx rng
    simp only [gaMutatePass]
    split_ifs
    · exact ih _ _
    · exact (ih _ _).trans ((evaluateCandidate_stream sd hsd sequence _ _).trans
        (mutateMoves_stream _ _))
    · exact ih _ _

theorem gaInitPop_stream (sd : Rng → List Mv × Rng) (hsd : sdStreamPres sd)
    (sequence : List Char) :
    ∀ (cnt : ℕ) (rng : Rng),
      ((gaInitPop sd sequence cnt rng).2).stream = rng.stream := by
  intro cnt
  induction cnt with
  | zero => intro rng; rfl
  | succ cnt ih =>
    intro rng
    exact (ih _).trans (makeCandidate_stream sd hsd sequence rng)

theorem gaStateFrom_stream (sd : Rng → List Mv × Rng) (hsd : sdStreamPres sd)
    (sequence : List Char) (p : GeneticParams) (rng0 : Rng) :
    ∀ gen, ((gaStateFrom sd sequence p rng0 gen).rng).stream = rng0.stream := by
  intro gen
  induction gen with
  | zero => exact gaInitPop_stream sd hsd sequence p.populationSize rng0
  | succ gen ih =>
    refine (gaMutatePass_stream sd hsd sequence p.mutationRate _ _ _ _).trans ?_
    refine (selectSurvivors_stream _ _ _).trans ?_
    exact (gaChildren_stream sd hsd sequence _ _ _).trans ih

theorem gaInitPop_inv (sd : Rng → List Mv × Rng) (sequence : List Char)
    (hseq : sequence ≠ []) :
    ∀ (cnt : ℕ) (rng : Rng) (c : Candidate),
      c ∈ (gaInitPop sd sequence cnt rng).1 → selfAvoidingInv sequence c := by
  intro cnt
  induction cnt with
  | zero => intro rng c hc; simp [gaInitPop] at hc
  | succ cnt ih =>
    intro rng c hc
    rcases List.mem_cons.mp hc with hc | hc
    · rw [hc]
      exact makeCandidate_inv sd sequence hseq rng
    · exact ih _ c hc

theorem gaInitPop_length (sd : Rng → List Mv × Rng) (sequence : List Char) :
    ∀ (cnt : ℕ) (rng : Rng), (gaInitPop sd sequence cnt rng).1.length = cnt := by
  intro cnt
  induction cnt with
  | zero => intro rng; rfl
  | succ cnt ih => intro rng; simp [gaInitPop, ih]

theorem gaChildren_inv (sd : Rng → List Mv × Rng) (sequence : List Char)
    (hseq : sequence ≠ []) (population : List Candidate) :
    ∀ (cnt : ℕ) (rng : Rng) (c : Candidate),
      c ∈ (gaChildren sd sequence population cnt rng).1 → selfAvoidingInv sequence c := by
  intro cnt
  induction cnt with
  | zero => intro rng c hc; simp [gaChildren] at hc
  | succ cnt ih =>
    intro rng c hc
    rcases List.mem_cons.mp hc with hc | hc
    · rw [hc]
      exact evaluateCandidate_inv sd sequence hseq _ _
    · exact ih _ c hc

theorem mem_insertByFitness (c x : Candidate) :
    ∀ l, x ∈ insertByFitness c l → x = c ∨ x ∈ l := by
  intro l
  induction l with
  | nil => intro h; simpa [insertByFitness] using h
  | cons d rest ih =>
    intro h
    simp only [insertByFitness] at h
    split_ifs at h
    · rcases List.mem_cons.mp h with h | h
      · exact Or.inl h
      · exact Or.inr h
    · rcases List.mem_cons.mp h with h | h
      · exact Or.inr (List.mem_cons.mpr (Or.inl h))
      · rcases ih h with h | h
        · exact Or.inl h
        · exact Or.inr (List.mem_cons.mpr (Or.inr h))

theorem mem_sortByFitnessDesc (x : Candidate) :
    ∀ l, x ∈ sortByFitnessDesc l → x ∈ l := by
  intro l
  induction l with
  | nil => intro h; simpa [sortByFitnessDesc] using h
  | cons c rest ih =>
    intro h
    have h' : x ∈ insertByFitness c (sortByFitnessDesc rest) := h
    rcases mem_insertByFitness c x _ h' with h'' | h''
    · exact List.mem_cons.mpr (Or.inl h'')
    · exact List.mem_cons.mpr (Or.inr (ih h''))

theorem insertByFitness_length (c : Candidate) :
    ∀ l, (insertByFitness c l).length = l.length + 1 := by
  intro l
  induction l with
  | nil => rfl
  | cons d rest ih =>
    simp only [insertByFitness]
    split_ifs <;> simp [ih]

theorem sortByFitnessDesc_length (l : List Candidate) :
    (sortByFitnessDesc l).length = l.length := by
  induction l with
  | nil => rfl
  | cons c rest ih =>
    have : sortByFitnessDesc (c :: rest) = insertByFitness c (sortByFitnessDesc rest) := rfl
    rw [this, insertByFitness_length, ih, List.length_cons]

theorem survivorPick_lt :
    ∀ (l : List Candidate) (t : ℚ) (idx : ℕ), l ≠ [] →
      survivorPick l t idx < idx + l.length := by
  intro l
  induction l with
  | nil => intro t idx h; exact absurd rfl h
  | cons c rest ih =>
    intro t idx _
    simp only [survivorPick]
    split_ifs
    · simp
    · by_cases hrest : rest = []
      · subst hrest
        simp only [survivorPick, List.length_cons, List.length_nil]
        omega
      · have h := ih (t - (max 0 c.fitness : ℕ)) (idx + 1) hrest
        simp only [List.length_cons]
        omega

theorem floor_mul_lt (r : ℚ) (len : ℕ) (hr : r < 1) (hl : 0 < len) :
    Int.toNat ⌊r * (len : ℚ)⌋ < len := by
  have h1 : r * (len : ℚ) < (len : ℚ) := by
    nlinarith [show (0 : ℚ) < (len : ℚ) by exact_mod_cast hl]
  have h2 : ⌊r * (len : ℚ)⌋ < (len : ℤ) := by
    rw [Int.floor_lt]
    exact_mod_cast h1
  omega

theorem survivorLoop_inv (P : Candidate → Prop) (populationSize : ℕ) :
    ∀ (fuel : ℕ) (survivors pool : List Candidate) (rng : Rng),
      (∀ n, rng.stream n < 1) →
      (∀ c ∈ survivors, P c) → (∀ c ∈ pool, P c) →
      ∀ c ∈ (survivorLoop populationSize fuel survivors pool rng).1, P c := by
  intro fuel
  induction fuel with
  | zero => intro survivors pool rng _ hs _ c hc; exact hs c hc
  | succ fuel ih =>
    intro survivors pool rng hstr hs hp c hc
    by_cases hcond : survivors.length < populationSize ∧ 0 < pool.length
    · have hpick : (if (pool.map (fun c => max 0 c.fitness)).sum = 0 then
          Int.toNat ⌊(rng.next.1) * (pool.length : ℚ)⌋
          else survivorPick pool ((rng.next.1) * (((pool.map (fun c => max 0 c.fitness)).sum : ℕ) : ℚ)) 0) <
          pool.length := by
        split_ifs
        · exact floor_mul_lt _ _ (hstr rng.k) hcond.2
        · have : pool ≠ [] := by
            intro h
            rw [h] at hcond
            simp at hcond
          simpa using survivorPick_lt pool _ 0 this
      have hstep : (survivorLoop populationSize (fuel + 1) survivors pool rng).1 =
          (survivorLoop populationSize fuel
            (survivors ++ [pool.getD (if (pool.map (fun c => max 0 c.fitness)).sum = 0 then
                Int.toNat ⌊(rng.next.1) * (pool.length : ℚ)⌋
                else survivorPick pool
                  ((rng.next.1) * (((pool.map (fun c => max 0 c.fitness)).sum : ℕ) : ℚ)) 0) dfltCand])
            (pool.eraseIdx (if (pool.map (fun c => max 0 c.fitness)).sum = 0 then
                Int.toNat ⌊(rng.next.1) * (pool.length : ℚ)⌋
                else survivorPick pool
                  ((rng.next.1) * (((pool.map (fun c => max 0 c.fitness)).sum : ℕ) : ℚ)) 0))
            rng.next.2).1 := by
        simp only [survivorLoop]
        rw [if_pos hcond]
      rw [hstep] at hc
      refine ih _ _ rng.next.2 (fun n => hstr n) ?_ ?_ c hc
      · intro c' hc'
        rcases List.mem_append.mp hc' with hc' | hc'
        · exact hs c' hc'
        · have hm : c' = pool.getD _ dfltCand := List.mem_singleton.mp hc'
          rw [hm, List.getD_eq_getElem pool dfltCand hpick]
          exact hp _ (List.getElem_mem _)
      · intro c' hc'
        exact hp c' (List.eraseIdx_subset pool _ hc')
    · have hstep : (survivorLoop populationSize (fuel + 1) survivors pool rng).1 = survivors := by
        simp only [survivorLoop]
        rw [if_neg hcond]
      rw [hstep] at hc
      exact hs c hc

theorem survivorLoop_length (populationSize : ℕ) :
    ∀ (fuel : ℕ) (survivors pool : List Candidate) (rng : Rng),
      survivors.length ≤ (survivorLoop populationSize fuel survivors pool rng).1.length := by
  intro fuel
  induction fuel with
  | zero => intro survivors pool rng; exact le_rfl
  | succ fuel ih =>
    intro survivors pool rng
    simp only [survivorLoop]
    split_ifs <;>
      first
        | exact le_rfl
        | refine le_trans ?_ (ih _ _ _); simp

theorem survivorTail_inv (P : Candidate → Prop) (populationSize : ℕ)
    (sorted : List Candidate) (hsorted : ∀ c ∈ sorted, P c) :
    ∀ (fuel : ℕ) (survivors : List Candidate), (∀ c ∈ survivors, P c) →
      ∀ c ∈ survivorTail populationSize sorted fuel survivors, P c := by
  intro fuel
  induction fuel with
  | zero => intro survivors hs c hc; exact hs c hc
  | succ fuel ih =>
    intro survivors hs c hc
    by_cases hcond : survivors.length < populationSize ∧ survivors.length < sorted.length
    · have hstep : survivorTail populationSize sorted (fuel + 1) survivors =
          survivorTail populationSize sorted fuel
            (survivors ++ [sorted.getD survivors.length dfltCand]) := by
        simp only [survivorTail]
        rw [if_pos hcond]
      rw [hstep] at hc
      refine ih _ ?_ c hc
      intro c' hc'
      rcases List.mem_append.mp hc' with hc' | hc'
      · exact hs c' hc'
      · have hm : c' = sorted.getD survivors.length dfltCand := List.mem_singleton.mp hc'
        rw [hm, List.getD_eq_getElem sorted dfltCand hcond.2]
        exact hsorted _ (List.getElem_mem _)
    · have hstep : survivorTail populationSize sorted (fuel + 1) survivors = survivors := by
        simp only [survivorTail]
        rw [if_neg hcond]
      rw [hstep] at hc
      exact hs c hc

theorem survivorTail_length (populationSize : ℕ) (sorted : List Candidate) :
    ∀ (fuel : ℕ) (survivors : List Candidate),
      survivors.length ≤ (survivorTail populationSize sorted fuel survivors).length := by
  intro fuel
  induction fuel with
  | zero => intro survivors; exact le_rfl
  | succ fuel ih =>
    intro survivors
    simp only [survivorTail]
    split_ifs
    · refine le_trans ?_ (ih _)
      simp
    · exact le_rfl

theorem gaMutatePass_inv (sd : Rng → List Mv × Rng) (sequence : List Char)
    (hseq : sequence ≠ []) (mutationRate : ℚ) (elites : ℕ) :
    ∀ (l : List Candidate) (idx : ℕ) (rng : Rng),
      (∀ c ∈ l, selfAvoidingInv sequence c) →
      ∀ c ∈ (gaMutatePass sd sequence mutationRate elites l idx rng).1.1,
        selfAvoidingInv sequence c := by
  intro l
  induction l with
  | nil => intro idx rng _ c hc; simp [gaMutatePass] at hc
  | cons d rest ih =>
    intro idx rng hl c hc
    have hd : selfAvoidingInv sequence d := hl d (List.mem_cons_self d rest)
    have hrest : ∀ c ∈ rest, selfAvoidingInv sequence c :=
      fun c hc => hl c (List.mem_cons_of_mem d hc)
    simp only [gaMutatePass] at hc
    split_ifs at hc
    · rcases List.mem_cons.mp hc with hc | hc
      · rw [hc]; exact hd
      · exact ih _ _ hrest c hc
    · rcases List.mem_cons.mp hc with hc | hc
      · rw [hc]; exact evaluateCandidate_inv sd sequence hseq _ _
      · exact ih _ _ hrest c hc
    · rcases List.mem_cons.mp hc with hc | hc
      · rw [hc]; exact hd
      · exact ih _ _ hrest c hc

theorem gaMutatePass_length (sd : Rng → List Mv × Rng) (sequence : List Char)
    (mutationRate : ℚ) (elites : ℕ) :
    ∀ (l : List Candidate) (idx : ℕ) (rng : Rng),
      (gaMutatePass sd sequence mutationRate elites l idx rng).1.1.length = l.length := by
  intro l
  induction l with
  | nil => intro idx rng; rfl
  | cons d rest ih =>
    intro idx rng
    simp only [gaMutatePass]
    split_ifs <;> simp [ih]

theorem foldl_best_mem (S : List Candidate) :
    ∀ (l : List Candidate) (acc : Candidate), acc ∈ S → (∀ x ∈ l, x ∈ S) →
      l.foldl (fun best cand => if cand.fitness > best.fitness then cand else best) acc ∈ S := by
  intro l
  induction l with
  | nil => intro acc hacc _; exact hacc
  | cons c rest ih =>
    intro acc hacc hl
    simp only [List.foldl_cons]
    refine ih _ ?_ (fun x hx => hl x (List.mem_cons_of_mem c hx))
    split_ifs
    · exact hl c (List.mem_cons_self c rest)
    · exact hacc

theorem bestOf_mem (population : List Candidate) (h : population ≠ []) :
    bestOf population ∈ population := by
  have hlen : 0 < population.length := List.length_pos.mpr h
  refine foldl_best_mem population population _ ?_ (fun x hx => hx)
  rw [List.getD_eq_getElem population dfltCand hlen]
  exact List.getElem_mem _

theorem gaStateFrom_inv (sd : Rng → List Mv × Rng) (hsd : sdStreamPres sd)
    (sequence : List Char) (hseq : sequence ≠ []) (p : GeneticParams)
    (hpop : 1 ≤ p.populationSize) (rng0 : Rng) (hstream : ∀ n, rng0.stream n < 1) :
    ∀ gen,
      (∀ c ∈ (gaStateFrom sd sequence p rng0 gen).population, selfAvoidingInv sequence c) ∧
      1 ≤ (gaStateFrom sd sequence p rng0 gen).population.length ∧
      selfAvoidingInv sequence (gaStateFrom sd sequence p rng0 gen).globalBest := by
  intro gen
  induction gen with
  | zero =>
    have hlen0 : (gaStateFrom sd sequence p rng0 0).population =
        (gaInitPop sd sequence p.populationSize rng0).1 := rfl
    have hne : (gaInitPop sd sequence p.populationSize rng0).1 ≠ [] := by
      intro h
      have hl := gaInitPop_length sd sequence p.populationSize rng0
      rw [h] at hl
      simp at hl
      omega
    refine ⟨fun c hc => gaInitPop_inv sd sequence hseq p.populationSize rng0 c hc, ?_, ?_⟩
    · rw [hlen0, gaInitPop_length]
      exact hpop
    · exact gaInitPop_inv sd sequence hseq p.populationSize rng0 _ (bestOf_mem _ hne)
  | succ gen ih =>
    obtain ⟨hpopInv, hlen, hgb⟩ := ih
    set st := gaStateFrom sd sequence p rng0 gen with hstdef
    set ch := gaChildren sd sequence st.population p.populationSize st.rng with hchdef
    set combined := st.population ++ ch.1 with hcombdef
    set sorted := sortByFitnessDesc combined with hsorteddef
    set eliteCount := max 1 (sorted.length / 20) with helitedef
    set elites := sorted.take eliteCount with helitesdef
    set pool := sorted.drop eliteCount with hpooldef
    set lp := survivorLoop p.populationSize pool.length elites pool ch.2 with hlpdef
    set sv2 := survivorTail p.populationSize sorted p.populationSize lp.1 with hsv2def
    set mp := gaMutatePass sd sequence p.mutationRate eliteCount sv2 0 lp.2 with hmpdef
    have hproj : gaStateFrom sd sequence p rng0 (gen + 1) =
        ⟨mp.1.1,
         if (bestOf mp.1.1).fitness > st.globalBest.fitness then bestOf mp.1.1
           else st.globalBest,
         eliteCount, mp.2⟩ := rfl
    have hcombInv : ∀ c ∈ combined, selfAvoidingInv sequence c := by
      intro c hc
      rcases List.mem_append.mp hc with hc | hc
      · exact hpopInv c hc
      · exact gaChildren_inv sd sequence hseq st.population p.populationSize st.rng c hc
    have hsortedInv : ∀ c ∈ sorted, selfAvoidingInv sequence c :=
      fun c hc => hcombInv c (mem_sortByFitnessDesc c combined hc)
    have hchStream : ∀ n, (ch.2).stream n < 1 := by
      intro n
      rw [hchdef, gaChildren_stream sd hsd sequence st.population p.populationSize st.rng,
        hstdef, gaStateFrom_stream sd hsd sequence p rng0 gen]
      exact hstream n
    have hlpInv : ∀ c ∈ lp.1, selfAvoidingInv sequence c := by
      refine survivorLoop_inv (selfAvoidingInv sequence) p.populationSize
        pool.length elites pool ch.2 hchStream ?_ ?_
      · exact fun c hc => hsortedInv c (List.take_subset eliteCount sorted hc)
      · exact fun c hc => hsortedInv c (List.drop_subset eliteCount sorted hc)
    have hsv2Inv : ∀ c ∈ sv2, selfAvoidingInv sequence c :=
      survivorTail_inv (selfAvoidingInv sequence) p.populationSize sorted hsortedInv
        p.populationSize lp.1 hlpInv
    have hnextInv : ∀ c ∈ mp.1.1, selfAvoidingInv sequence c :=
      gaMutatePass_inv sd sequence hseq p.mutationRate eliteCount sv2 0 lp.2 hsv2Inv
    have hnextLen : 1 ≤ mp.1.1.length := by
      rw [hmpdef, gaMutatePass_length]
      refine le_trans ?_ (survivorTail_length p.populationSize sorted p.populationSize lp.1)
      refine le_trans ?_ (survivorLoop_length p.populationSize pool.length elites pool ch.2)
      rw [helitesdef, List.length_take]
      have h1 : 1 ≤ eliteCount := le_max_left 1 _
      have h2 : 1 ≤ sorted.length := by
        rw [hsorteddef, sortByFitnessDesc_length, hcombdef, List.length_append]
        omega
      omega
    have hnextNe : mp.1.1 ≠ [] := by
      intro h
      rw [h] at hnextLen
      simp at hnextLen
    rw [hproj]
    refine ⟨hnextInv, hnextLen, ?_⟩
    by_cases hb : (bestOf mp.1.1).fitness > st.globalBest.fitness
    · show selfAvoidingInv sequence
        (if (bestOf mp.1.1).fitness > st.globalBest.fitness then bestOf mp.1.1
          else st.globalBest)
      rw [if_pos hb]
      exact hnextInv _ (bestOf_mem _ hnextNe)
    · show selfAvoidingInv sequence
        (if (bestOf mp.1.1).fitness > st.globalBest.fitness then bestOf mp.1.1
          else st.globalBest)
      rw [if_neg hb]
      exact hgb

/-- C7: for every non-empty sequence, every candidate held by any
iteration of the three search drivers satisfies the self-avoidance
invariant: no duplicate coordinates, `positions[0] = (0,0)`,
`positions.length = sequence.length`.  The hill-climbing and annealing
conjuncts are about the actual seeded trajectories; the genetic
conjunct quantifies over any starting generator whose `rand()` values
obey the `[0, 1)` contract (with an environment whose comparator
shuffle only consumes `rand()` calls). -/
theorem c7_self_avoidance (env : JsEnv) (sequence : List Char) (hseq : sequence ≠ [])
    (ri : ℕ) (pSA : AnnealingParams) (pGA : GeneticParams)
    (hpop : 1 ≤ pGA.populationSize) (rng0 : Rng)
    (hsd : sdStreamPres env.sortDirs) (hstream : ∀ n, rng0.stream n < 1) :
    (∀ k, selfAvoidingInv sequence (hcStateAt env sequence ri k).current ∧
        selfAvoidingInv sequence (hcStateAt env sequence ri k).best) ∧
    (∀ k, selfAvoidingInv sequence (saStateAt env sequence pSA k).current ∧
        selfAvoidingInv sequence (saStateAt env sequence pSA k).best) ∧
    (∀ gen, (∀ c ∈ (gaStateFrom env.sortDirs sequence pGA rng0 gen).population,
          selfAvoidingInv sequence c) ∧
        selfAvoidingInv sequence (gaStateFrom env.sortDirs sequence pGA rng0 gen).globalBest) :=
  ⟨fun k => hcStateFrom_inv env.sortDirs sequence hseq ri _ k,
   fun k => saStateFrom_inv env sequence hseq pSA _ k,
   fun gen =>
     ⟨(gaStateFrom_inv env.sortDirs hsd sequence hseq pGA hpop rng0 hstream gen).1,
      (gaStateFrom_inv env.sortDirs hsd sequence hseq pGA hpop rng0 hstream gen).2.2⟩⟩

/-- The all-zero `rand()` stream, a valid `[0, 1)` instance. -/
def zeroRng : Rng := ⟨fun _ => 0, 0⟩

/-- Witness for C7 at a concrete input. -/
theorem c7_witness :
    (['A', 'F'] : List Char) ≠ [] ∧ 1 ≤ (2 : ℕ) ∧
      sdStreamPres trivEnv.sortDirs ∧ (∀ n, zeroRng.stream n < 1) ∧
      selfAvoidingInv ['A', 'F'] (hcStateAt trivEnv ['A', 'F'] 12 1).current ∧
      selfAvoidingInv ['A', 'F'] (saStateAt trivEnv ['A', 'F'] ⟨2, 6, 9 / 10⟩ 1).current ∧
      selfAvoidingInv ['A', 'F']
        (gaStateFrom trivEnv.sortDirs ['A', 'F'] ⟨2, 1, 1 / 1000⟩ zeroRng 1).globalBest :=
  ⟨by decide, by decide, fun r => rfl, fun n => by norm_num [zeroRng],
    ((c7_self_avoidance trivEnv ['A', 'F'] (by decide) 12 ⟨2, 6, 9 / 10⟩ ⟨2, 1, 1 / 1000⟩
        (by decide) zeroRng (fun r => rfl) (fun n => by norm_num [zeroRng])).1 1).1,
    ((c7_self_avoidance trivEnv ['A', 'F'] (by decide) 12 ⟨2, 6, 9 / 10⟩ ⟨2, 1, 1 / 1000⟩
        (by decide) zeroRng (fun r => rfl) (fun n => by norm_num [zeroRng])).2.1 1).1,
    ((c7_self_avoidance trivEnv ['A', 'F'] (by decide) 12 ⟨2, 6, 9 / 10⟩ ⟨2, 1, 1 / 1000⟩
        (by decide) zeroRng (fun r => rfl) (fun n => by norm_num [zeroRng])).2.2 1).2⟩

/-! ## C8: seeded determinism of the genetic driver -/

/-- C8: `runGeneticFolding` is deterministic in its input.  All its
randomness derives from the seed hashed from the input sequence
through the fixed LCG (`seededRandom sequence` is exactly
hash-then-iterate, last conjunct), and the run never consults the
host's ambient entropy or its `exp` primitive: two invocations in the
same engine (same comparator-shuffle behaviour `sd`) with arbitrary,
possibly different, ambient entropy and `exp` behaviour return
identical `FoldingResult`s - in particular identical `finalStructure`,
`stabilityScore` and step traces. -/
theorem c8_genetic_determinism (sd : Rng → List Mv × Rng) (lt1 lt2 : ℚ → ℚ → Bool)
    (e1 e2 : ℕ → ℚ) (sequence : List Char) (p : GeneticParams) :
    runGeneticFolding ⟨sd, lt1, e1⟩ sequence p =
        runGeneticFolding ⟨sd, lt2, e2⟩ sequence p ∧
      (runGeneticFolding ⟨sd, lt1, e1⟩ sequence p).finalStructure =
        (runGeneticFolding ⟨sd, lt2, e2⟩ sequence p).finalStructure ∧
      (runGeneticFolding ⟨sd, lt1, e1⟩ sequence p).stabilityScore =
        (runGeneticFolding ⟨sd, lt2, e2⟩ sequence p).stabilityScore ∧
      (runGeneticFolding ⟨sd, lt1, e1⟩ sequence p).steps =
        (runGeneticFolding ⟨sd, lt2, e2⟩ sequence p).steps ∧
      seededRandom sequence =
        ⟨fun n => ((lcgIter (n + 1) (seedHash sequence) : ℕ) : ℚ) / 4294967295, 0⟩ :=
  ⟨rfl, rfl, rfl, rfl, rfl⟩
